/-
Verification of the blk-index block-file parser and indexing pipeline.

The definitions below are a shallow embedding of the Python sources:
  src/core/blk_parser.py   (class parser)
  src/core/indexer.py      (class index, worker parse_block_file)

Modelling conventions:
  * a byte is `Fin 256`;
  * a binary file handle is a `Cursor` (byte list plus position); `read`
    returns the available bytes and advances by the number actually read,
    exactly like Python file objects;
  * Python exceptions are an explicit `PyErr` sum type and fallible code
    returns `Except PyErr _`;
  * Python `float` values (IEEE binary64) are represented exactly as
    rationals, with an executable round-to-nearest-even model `pyFloat`;
  * hash functions (SHA-256, RIPEMD-160) are implemented in full and
    validated against standard test vectors.
-/
import Mathlib

/-- A byte value 0..255. -/
abbrev Byte := Fin 256

/-- Build a byte from a natural number, reducing mod 256 (as struct.pack does
for the widths we use, where the value is already in range). -/
def byte (n : Nat) : Byte := ⟨n % 256, Nat.mod_lt _ (by decide)⟩

/-- Little-endian value of a byte string (struct.unpack of an exact-width
little-endian field, and int.from_bytes(..., 'little')). -/
def leNat (bs : List Byte) : Nat := bs.foldr (fun b acc => b.1 + 256 * acc) 0

/-- Little-endian encoding of `n` on `k` bytes (struct.pack for fixed widths,
assuming `n < 256^k` as guaranteed at every call site). -/
def lePack : Nat → Nat → List Byte
  | 0, _ => []
  | k + 1, n => byte n :: lePack k (n / 256)

/-- Errors of the embedded Python code. -/
inductive PyErr where
  /-- ValueError "Invalid magic bytes" in read_block_sync. -/
  | invalidMagic : PyErr
  /-- ValueError "Incomplete block" in read_block_sync. -/
  | incompleteBlock : PyErr
  /-- struct.error, "unpack requires a buffer of N bytes". -/
  | structError : PyErr
  /-- TypeError, e.g. range(None) when read_varint_sync returned None. -/
  | typeError : PyErr
  /-- ValueError from bytes.fromhex on a non-hex string. -/
  | valueError : PyErr
  /-- AttributeError from a failed attribute lookup. -/
  | attributeError : PyErr
deriving DecidableEq, Repr

/-- A binary stream: the underlying bytes and the current position.
Models the BytesIO / file objects the parser reads from. -/
structure Cursor where
  data : List Byte
  pos : Nat
deriving DecidableEq, Repr

/-- f.read(n): returns min(n, remaining) bytes and advances by that many. -/
def Cursor.read (f : Cursor) (n : Nat) : List Byte × Cursor :=
  let bs := (f.data.drop f.pos).take n
  (bs, ⟨f.data, f.pos + bs.length⟩)

/-- f.seek(n) (absolute). -/
def Cursor.seekAbs (f : Cursor) (n : Nat) : Cursor := ⟨f.data, n⟩

/-- f.seek(-k, 1) (relative rewind, used with k ∈ {1,2}); call sites
guarantee the position stays non-negative. -/
def Cursor.seekBack (f : Cursor) (k : Nat) : Cursor := ⟨f.data, f.pos - k⟩

/-- f.tell(). -/
def Cursor.tell (f : Cursor) : Nat := f.pos

/-- struct.unpack of one little-endian field of `width` bytes from the
stream: short reads raise struct.error. -/
def readLE (f : Cursor) (width : Nat) : Except PyErr (Nat × Cursor) :=
  let (bs, f') := f.read width
  if bs.length = width then .ok (leNat bs, f') else .error .structError

/-- parser.read_varint_sync: reads one byte `i`; empty read returns None;
`i < 0xfd` returns `i`; `0xfd`/`0xfe`/`0xff` read a 2/4/8-byte LE value. -/
def read_varint_sync (f : Cursor) : Except PyErr (Option Nat × Cursor) :=
  let (i, f') := f.read 1
  match i with
  | [] => .ok (none, f')
  | b :: _ =>
    if b.1 < 0xfd then .ok (some b.1, f')
    else if b.1 = 0xfd then
      match readLE f' 2 with
      | .ok (v, f'') => .ok (some v, f'')
      | .error e => .error e
    else if b.1 = 0xfe then
      match readLE f' 4 with
      | .ok (v, f'') => .ok (some v, f'')
      | .error e => .error e
    else
      match readLE f' 8 with
      | .ok (v, f'') => .ok (some v, f'')
      | .error e => .error e

/-- parser._write_varint: canonical Bitcoin varint encoder. -/
def _write_varint (n : Nat) : List Byte :=
  if n < 0xfd then [byte n]
  else if n ≤ 0xffff then byte 0xfd :: lePack 2 n
  else if n ≤ 0xffffffff then byte 0xfe :: lePack 4 n
  else byte 0xff :: lePack 8 n

/-- Decode the first varint of a byte string, discarding the cursor. -/
def varintOfBytes (bs : List Byte) : Option Nat :=
  match read_varint_sync ⟨bs, 0⟩ with
  | .ok (r, _) => r
  | .error _ => none

/-- C9: decoding the encoder's output returns the original value for each of
the seven specified values: a single byte below 0xFD encodes itself, prefix
0xFD is followed by 2 little-endian bytes, 0xFE by 4, and 0xFF by 8. -/
theorem varint_roundtrip_C9 :
    ([0, 0xFC, 0xFD, 0xFFFF, 0x10000, 0xFFFFFFFF, 0x100000000].map
      (fun v => varintOfBytes (_write_varint v)))
      = [0, 0xFC, 0xFD, 0xFFFF, 0x10000, 0xFFFFFFFF, 0x100000000].map some
    ∧ (_write_varint 0xFC).length = 1
    ∧ (_write_varint 0xFD).length = 3
    ∧ (_write_varint 0x10000).length = 5
    ∧ (_write_varint 0x100000000).length = 9 := by
  decide

/-- The sixteen lowercase hex digits, as produced by Python bytes.hex(). -/
def hexDigits : List Char := "0123456789abcdef".data

/-- Two lowercase hex characters for one byte. -/
def hexPair (b : Byte) : List Char :=
  [hexDigits.getD (b.1 / 16) '0', hexDigits.getD (b.1 % 16) '0']

/-- Character list of bytes.hex(). -/
def bytesToHexChars (bs : List Byte) : List Char :=
  bs.foldr (fun b acc => hexPair b ++ acc) []

/-- bytes.hex(): lowercase hex string of a byte string. -/
def bytesToHex (bs : List Byte) : String :=
  String.mk (bytesToHexChars bs)

/-- Value of one hex character (both cases, as bytes.fromhex accepts). -/
def hexVal (c : Char) : Option Nat :=
  if c = '0' then some 0 else if c = '1' then some 1
  else if c = '2' then some 2 else if c = '3' then some 3
  else if c = '4' then some 4 else if c = '5' then some 5
  else if c = '6' then some 6 else if c = '7' then some 7
  else if c = '8' then some 8 else if c = '9' then some 9
  else if c = 'a' ∨ c = 'A' then some 10 else if c = 'b' ∨ c = 'B' then some 11
  else if c = 'c' ∨ c = 'C' then some 12 else if c = 'd' ∨ c = 'D' then some 13
  else if c = 'e' ∨ c = 'E' then some 14 else if c = 'f' ∨ c = 'F' then some 15
  else none

/-- bytes.fromhex on a character list: pairs of hex digits; odd length or a
non-hex character is a ValueError, modelled as `none`. -/
def fromhexChars : List Char → Option (List Byte)
  | [] => some []
  | [_] => none
  | c1 :: c2 :: rest =>
    match hexVal c1, hexVal c2, fromhexChars rest with
    | some h, some l, some bs => some (byte (16 * h + l) :: bs)
    | _, _, _ => none

/-- bytes.fromhex on a string. -/
def fromhexStr (s : String) : Option (List Byte) := fromhexChars s.data

/-- A string made of hex digits only (the shape of every script hex the
parser itself produces via bytes.hex()). -/
def isHexStr (s : String) : Bool := s.data.all (fun c => (hexVal c).isSome)

set_option maxRecDepth 100000 in
/-- Digit-level facts behind the fromhex/hex round trip, checked over all
256 byte values. -/
theorem hexPair_digits : ∀ b : Byte,
    hexVal (hexDigits.getD (b.1 / 16) '0') = some (b.1 / 16)
    ∧ hexVal (hexDigits.getD (b.1 % 16) '0') = some (b.1 % 16)
    ∧ byte (16 * (b.1 / 16) + b.1 % 16) = b := by
  decide

/-- fromhex inverts bytes.hex() on one leading byte. -/
theorem fromhex_hexPair (b : Byte) (rest : List Char) :
    fromhexChars (hexPair b ++ rest) = (fromhexChars rest).map (fun bs => b :: bs) := by
  obtain ⟨h1, h2, h3⟩ := hexPair_digits b
  simp only [hexPair, List.cons_append, List.nil_append, fromhexChars, h1, h2]
  cases h : fromhexChars rest <;> simp [h, h3]

/-- fromhex inverts bytes.hex() at the character-list level. -/
theorem fromhex_hexlist (bs : List Byte) :
    fromhexChars (bytesToHexChars bs) = some bs := by
  induction bs with
  | nil => rfl
  | cons b t ih =>
    simp only [bytesToHexChars, List.foldr] at ih ⊢
    rw [fromhex_hexPair, ih]
    rfl

/-- fromhex inverts bytes.hex(). -/
theorem fromhex_bytesToHex (bs : List Byte) :
    fromhexStr (bytesToHex bs) = some bs :=
  fromhex_hexlist bs

/-- bytes.hex() output consists of hex digits. -/
theorem isHex_bytesToHex (bs : List Byte) : isHexStr (bytesToHex bs) = true := by
  show (bytesToHexChars bs).all _ = true
  induction bs with
  | nil => rfl
  | cons b t ih =>
    simp only [bytesToHexChars, List.foldr, List.all_append] at ih ⊢
    have h := hexPair_digits b
    simp only [hexPair, List.all_cons, List.all_nil, Bool.and_true, h.1, h.2.1,
      Option.isSome_some, Bool.true_and]
    exact ih

/-- The length of bytes.hex() output is twice the byte count. -/
theorem length_bytesToHexChars (bs : List Byte) :
    (bytesToHexChars bs).length = 2 * bs.length := by
  induction bs with
  | nil => rfl
  | cons b t ih =>
    show (hexPair b ++ bytesToHexChars t).length = _
    rw [List.length_append, ih]
    simp [hexPair, List.length_cons]
    omega

/-- 32-bit truncation. -/
def w32 (n : Nat) : Nat := n % 4294967296

/-- 32-bit right rotation. -/
def rotr32 (r x : Nat) : Nat := w32 ((x >>> r) ||| (x <<< (32 - r)))

/-- 32-bit left rotation. -/
def rotl32 (r x : Nat) : Nat := w32 ((x <<< r) ||| (x >>> (32 - r)))

/-- Bitwise complement on 32 bits. -/
def not32 (x : Nat) : Nat := x ^^^ 0xffffffff

/-- Split a list into chunks of `n` elements (the last may be shorter);
structural recursion on a fuel bounded by the list length so that the
function reduces inside the kernel. -/
def chunksOfF (n : Nat) : Nat → List α → List (List α)
  | _, [] => []
  | 0, _ :: _ => []
  | fuel + 1, x :: xs => (x :: xs).take n :: chunksOfF n fuel ((x :: xs).drop n)

/-- Split a list into chunks of `n ≥ 1` elements (the last may be shorter). -/
def chunksOf (n : Nat) (l : List α) : List (List α) :=
  if n = 0 then [] else chunksOfF n l.length l

/-- Big-endian encoding of `n` on `k` bytes (SHA-256 length field and words). -/
def bePack : Nat → Nat → List Nat
  | 0, _ => []
  | k + 1, n => bePack k (n / 256) ++ [n % 256]

/-- Big-endian word value of a 4-byte group. -/
def beWord (bs : List Nat) : Nat := bs.foldl (fun acc b => acc * 256 + b) 0

/-- Little-endian word value of a 4-byte group (RIPEMD-160). -/
def leWord (bs : List Nat) : Nat := bs.foldr (fun b acc => acc * 256 + b) 0

/-- MD-strengthening padding: append 0x80, zeros to 56 mod 64, then the
bit length on 8 bytes (big-endian for SHA-256). -/
def padBE (msg : List Nat) : List Nat :=
  msg ++ 0x80 :: List.replicate ((119 - msg.length % 64) % 64) 0
      ++ bePack 8 (8 * msg.length)

/-- Same padding with a little-endian length field (RIPEMD-160). -/
def padLE (msg : List Nat) : List Nat :=
  msg ++ 0x80 :: List.replicate ((119 - msg.length % 64) % 64) 0
      ++ (lePack 8 (8 * msg.length)).map Fin.val

/-- SHA-256 round constants (decimal). -/
def sha256K : List Nat :=
  [1116352408, 1899447441, 3049323471, 3921009573, 961987163,
   1508970993, 2453635748, 2870763221, 3624381080, 310598401,
   607225278, 1426881987, 1925078388, 2162078206, 2614888103,
   3248222580, 3835390401, 4022224774, 264347078, 604807628,
   770255983, 1249150122, 1555081692, 1996064986, 2554220882,
   2821834349, 2952996808, 3210313671, 3336571891, 3584528711,
   113926993, 338241895, 666307205, 773529912, 1294757372,
   1396182291, 1695183700, 1986661051, 2177026350, 2456956037,
   2730485921, 2820302411, 3259730800, 3345764771, 3516065817,
   3600352804, 4094571909, 275423344, 430227734, 506948616,
   659060556, 883997877, 958139571, 1322822218, 1537002063,
   1747873779, 1955562222, 2024104815, 2227730452, 2361852424,
   2428436474, 2756734187, 3204031479, 3329325298]

/-- SHA-256 initial hash state (decimal). -/
def sha256H0 : List Nat :=
  [1779033703, 3144134277, 1013904242, 2773480762,
   1359893119, 2600822924, 528734635, 1541459225]

/-- Extend a 16-word block to the 64-word message schedule. -/
def sha256Sched (w : List Nat) : Nat → List Nat
  | 0 => w
  | fuel + 1 =>
    let n := w.length
    let s0 := fun x => (rotr32 7 x) ^^^ (rotr32 18 x) ^^^ (x >>> 3)
    let s1 := fun x => (rotr32 17 x) ^^^ (rotr32 19 x) ^^^ (x >>> 10)
    let nw := w32 (s1 (w.getD (n - 2) 0) + w.getD (n - 7) 0
      + s0 (w.getD (n - 15) 0) + w.getD (n - 16) 0)
    sha256Sched (w ++ [nw]) fuel

/-- One SHA-256 compression round state. -/
structure Sha256State where
  a : Nat
  b : Nat
  c : Nat
  d : Nat
  e : Nat
  f : Nat
  g : Nat
  h : Nat

/-- The 64 SHA-256 rounds over the paired (constant, schedule-word) list. -/
def sha256Rounds (kw : List (Nat × Nat)) (st : Sha256State) : Sha256State :=
  match kw with
  | [] => st
  | (k, w) :: rest =>
    let S1 := (rotr32 6 st.e) ^^^ (rotr32 11 st.e) ^^^ (rotr32 25 st.e)
    let ch := (st.e &&& st.f) ^^^ ((not32 st.e) &&& st.g)
    let t1 := w32 (st.h + S1 + ch + k + w)
    let S0 := (rotr32 2 st.a) ^^^ (rotr32 13 st.a) ^^^ (rotr32 22 st.a)
    let maj := (st.a &&& st.b) ^^^ (st.a &&& st.c) ^^^ (st.b &&& st.c)
    let t2 := w32 (S0 + maj)
    sha256Rounds rest
      ⟨w32 (t1 + t2), st.a, st.b, st.c, w32 (st.d + t1), st.e, st.f, st.g⟩

/-- Process one 64-byte block. -/
def sha256Block (h : List Nat) (block : List Nat) : List Nat :=
  let w := sha256Sched ((chunksOf 4 block).map beWord) 48
  let st0 : Sha256State :=
    ⟨h.getD 0 0, h.getD 1 0, h.getD 2 0, h.getD 3 0,
     h.getD 4 0, h.getD 5 0, h.getD 6 0, h.getD 7 0⟩
  let st := sha256Rounds (sha256K.zip w) st0
  [w32 (h.getD 0 0 + st.a), w32 (h.getD 1 0 + st.b), w32 (h.getD 2 0 + st.c),
   w32 (h.getD 3 0 + st.d), w32 (h.getD 4 0 + st.e), w32 (h.getD 5 0 + st.f),
   w32 (h.getD 6 0 + st.g), w32 (h.getD 7 0 + st.h)]

/-- SHA-256 of a byte-value list, as a byte-value list (hashlib.sha256). -/
def sha256Nat (msg : List Nat) : List Nat :=
  ((chunksOf 64 (padBE msg)).foldl sha256Block sha256H0).foldr
    (fun wd acc => bePack 4 wd ++ acc) []

/-- SHA-256 over `Byte` lists. -/
def sha256B (msg : List Byte) : List Byte :=
  (sha256Nat (msg.map Fin.val)).map byte

set_option maxRecDepth 100000 in
/-- FIPS 180-2 test vectors: SHA-256 of "" and of "abc". -/
theorem sha256_test_vectors :
    sha256Nat [] =
      [0xe3, 0xb0, 0xc4, 0x42, 0x98, 0xfc, 0x1c, 0x14, 0x9a, 0xfb, 0xf4, 0xc8,
       0x99, 0x6f, 0xb9, 0x24, 0x27, 0xae, 0x41, 0xe4, 0x64, 0x9b, 0x93, 0x4c,
       0xa4, 0x95, 0x99, 0x1b, 0x78, 0x52, 0xb8, 0x55]
    ∧ sha256Nat [0x61, 0x62, 0x63] =
      [0xba, 0x78, 0x16, 0xbf, 0x8f, 0x01, 0xcf, 0xea, 0x41, 0x41, 0x40, 0xde,
       0x5d, 0xae, 0x22, 0x23, 0xb0, 0x03, 0x61, 0xa3, 0x96, 0x17, 0x7a, 0x9c,
       0xb4, 0x10, 0xff, 0x61, 0xf2, 0x00, 0x15, 0xad] := by
  constructor <;> rfl

/-- RIPEMD-160 initial state. -/
def rmdH0 : List Nat := [0x67452301, 0xefcdab89, 0x98badcfe, 0x10325476, 0xc3d2e1f0]

/-- RIPEMD-160 selection function for round block j/16. -/
def rmdF (j x y z : Nat) : Nat :=
  if j < 16 then x ^^^ y ^^^ z
  else if j < 32 then (x &&& y) ||| ((not32 x) &&& z)
  else if j < 48 then (x ||| (not32 y)) ^^^ z
  else if j < 64 then (x &&& z) ||| (y &&& (not32 z))
  else x ^^^ (y ||| (not32 z))

/-- RIPEMD-160 left-line round constants. -/
def rmdK (j : Nat) : Nat :=
  if j < 16 then 0 else if j < 32 then 0x5a827999
  else if j < 48 then 0x6ed9eba1 else if j < 64 then 0x8f1bbcdc
  else 0xa953fd4e

/-- RIPEMD-160 right-line round constants. -/
def rmdKK (j : Nat) : Nat :=
  if j < 16 then 0x50a28be6 else if j < 32 then 0x5c4dd124
  else if j < 48 then 0x6d703ef3 else if j < 64 then 0x7a6d76e9
  else 0

/-- RIPEMD-160 left-line message word order. -/
def rmdR : List Nat :=
  [0, 1, 2, 3, 4, 5, 6, 7, 8, 9, 10, 11, 12, 13, 14, 15,
   7, 4, 13, 1, 10, 6, 15, 3, 12, 0, 9, 5, 2, 14, 11, 8,
   3, 10, 14, 4, 9, 15, 8, 1, 2, 7, 0, 6, 13, 11, 5, 12,
   1, 9, 11, 10, 0, 8, 12, 4, 13, 3, 7, 15, 14, 5, 6, 2,
   4, 0, 5, 9, 7, 12, 2, 10, 14, 1, 3, 8, 11, 6, 15, 13]

/-- RIPEMD-160 right-line message word order. -/
def rmdRR : List Nat :=
  [5, 14, 7, 0, 9, 2, 11, 4, 13, 6, 15, 8, 1, 10, 3, 12,
   6, 11, 3, 7, 0, 13, 5, 10, 14, 15, 8, 12, 4, 9, 1, 2,
   15, 5, 1, 3, 7, 14, 6, 9, 11, 8, 12, 2, 10, 0, 4, 13,
   8, 6, 4, 1, 3, 11, 15, 0, 5, 12, 2, 13, 9, 7, 10, 14,
   12, 15, 10, 4, 1, 5, 8, 7, 6, 2, 13, 14, 0, 3, 9, 11]

/-- RIPEMD-160 left-line rotation amounts. -/
def rmdS : List Nat :=
  [11, 14, 15, 12, 5, 8, 7, 9, 11, 13, 14, 15, 6, 7, 9, 8,
   7, 6, 8, 13, 11, 9, 7, 15, 7, 12, 15, 9, 11, 7, 13, 12,
   11, 13, 6, 7, 14, 9, 13, 15, 14, 8, 13, 6, 5, 12, 7, 5,
   11, 12, 14, 15, 14, 15, 9, 8, 9, 14, 5, 6, 8, 6, 5, 12,
   9, 15, 5, 11, 6, 8, 13, 12, 5, 12, 13, 14, 11, 8, 5, 6]

/-- RIPEMD-160 right-line rotation amounts. -/
def rmdSS : List Nat :=
  [8, 9, 9, 11, 13, 15, 15, 5, 7, 7, 8, 11, 14, 14, 12, 6,
   9, 13, 15, 7, 12, 8, 9, 11, 7, 7, 12, 7, 6, 15, 13, 11,
   9, 7, 15, 11, 8, 6, 6, 14, 12, 13, 5, 14, 13, 13, 7, 5,
   15, 5, 8, 11, 14, 14, 6, 14, 6, 9, 12, 9, 12, 5, 15, 8,
   8, 5, 12, 9, 12, 5, 14, 6, 8, 13, 6, 5, 15, 13, 11, 11]

/-- A five-word RIPEMD-160 line state. -/
structure RmdState where
  a : Nat
  b : Nat
  c : Nat
  d : Nat
  e : Nat

/-- One of the two 80-round RIPEMD-160 lines; `left` selects the round
function / constant schedule. -/
def rmdLine (X : List Nat) (rT sT : List Nat) (left : Bool) (st : RmdState) : RmdState :=
  (List.range 80).foldl
    (fun st j =>
      let fj := if left then rmdF j st.b st.c st.d else rmdF (79 - j) st.b st.c st.d
      let k := if left then rmdK j else rmdKK j
      let t := w32 (rotl32 (sT.getD j 0)
        (w32 (st.a + fj + X.getD (rT.getD j 0) 0 + k)) + st.e)
      ⟨st.e, t, st.b, rotl32 10 st.c, st.d⟩)
    st

/-- Process one 64-byte RIPEMD-160 block. -/
def rmdBlock (h : List Nat) (block : List Nat) : List Nat :=
  let X := (chunksOf 4 block).map leWord
  let st0 : RmdState := ⟨h.getD 0 0, h.getD 1 0, h.getD 2 0, h.getD 3 0, h.getD 4 0⟩
  let l := rmdLine X rmdR rmdS true st0
  let r := rmdLine X rmdRR rmdSS false st0
  [w32 (h.getD 1 0 + l.c + r.d), w32 (h.getD 2 0 + l.d + r.e),
   w32 (h.getD 3 0 + l.e + r.a), w32 (h.getD 4 0 + l.a + r.b),
   w32 (h.getD 0 0 + l.b + r.c)]

/-- RIPEMD-160 of a byte-value list (hashlib.new('ripemd160')). -/
def ripemd160Nat (msg : List Nat) : List Nat :=
  ((chunksOf 64 (padLE msg)).foldl rmdBlock rmdH0).foldr
    (fun wd acc => (lePack 4 wd).map Fin.val ++ acc) []

/-- RIPEMD-160 over `Byte` lists. -/
def ripemd160B (msg : List Byte) : List Byte :=
  (ripemd160Nat (msg.map Fin.val)).map byte

set_option maxRecDepth 100000 in
/-- Reference test vectors: RIPEMD-160 of "" and of "abc". -/
theorem ripemd160_test_vectors :
    ripemd160Nat [] =
      [0x9c, 0x11, 0x85, 0xa5, 0xc5, 0xe9, 0xfc, 0x54, 0x61, 0x28,
       0x08, 0x97, 0x7e, 0xe8, 0xf5, 0x48, 0xb2, 0x25, 0x8d, 0x31]
    ∧ ripemd160Nat [0x61, 0x62, 0x63] =
      [0x8e, 0xb2, 0x08, 0xf7, 0xe0, 0x5d, 0x98, 0x7a, 0x9b, 0x04,
       0x4a, 0x8e, 0x98, 0xc6, 0xb0, 0x87, 0xf1, 0x5a, 0x0b, 0xfc] := by
  constructor <;> rfl

/-- The Bitcoin base58 alphabet. -/
def b58Alphabet : List Char :=
  ['1','2','3','4','5','6','7','8','9','A','B','C','D','E','F','G','H','J',
   'K','L','M','N','P','Q','R','S','T','U','V','W','X','Y','Z','a','b','c',
   'd','e','f','g','h','i','j','k','m','n','o','p','q','r','s','t','u','v',
   'w','x','y','z']

/-- Base58 digits of `n`, least significant first; structural fuel
recursion (fuel `n` always suffices) so the kernel can reduce it. -/
def b58digitsF : Nat → Nat → List Nat
  | _, 0 => []
  | 0, _ + 1 => []
  | fuel + 1, n + 1 => ((n + 1) % 58) :: b58digitsF fuel ((n + 1) / 58)

/-- Big-endian integer value of a byte string. -/
def beNat (bs : List Byte) : Nat := bs.foldl (fun acc b => acc * 256 + b.1) 0

/-- base58.b58encode: one '1' per leading zero byte, then the big-endian
value of the rest written in base 58. -/
def b58encode (bs : List Byte) : String :=
  let z := (bs.takeWhile (fun b => b.1 == 0)).length
  let n := beNat bs
  String.mk (List.replicate z '1'
    ++ ((b58digitsF n n).reverse.map (fun d => b58Alphabet.getD d '1')))

/-- parser._encode_address: Base58Check of version byte plus hash given as a
hex character string; any failure (bad hex) is caught and becomes None. -/
def _encode_address (version : List Byte) (hash_hex : List Char) : Option String :=
  match fromhexChars hash_hex with
  | none => none
  | some hb =>
    let payload := version ++ hb
    let checksum := (sha256B (sha256B payload)).take 4
    some (b58encode (payload ++ checksum))

/-- The bech32 charset of the source. -/
def _bech32_charset : List Char :=
  ['q','p','z','r','y','9','x','8','g','f','2','t','v','d','w','0','s','3',
   'j','n','5','4','k','h','c','e','6','m','u','a','7','l']

/-- parser._bech32_hrp_expand. -/
def _bech32_hrp_expand (hrp : String) : List Nat :=
  hrp.data.map (fun c => c.toNat >>> 5) ++ [0] ++ hrp.data.map (fun c => c.toNat &&& 31)

/-- parser._bech32_polymod_step. -/
def _bech32_polymod_step (values : List Nat) : Nat :=
  let GEN := [0x3b6a57b2, 0x26508e6d, 0x1ea119fa, 0x3d4233dd, 0x2a1462b3]
  values.foldl
    (fun chk value =>
      let top := chk >>> 25
      let chk2 := (((chk &&& 0x1ffffff) <<< 5) ^^^ value)
      (List.range 5).foldl
        (fun c i => if (top >>> i) &&& 1 = 1 then c ^^^ GEN.getD i 0 else c) chk2)
    1

/-- parser._bech32_create_checksum. -/
def _bech32_create_checksum (hrp : String) (data : List Nat) : List Nat :=
  let values := _bech32_hrp_expand hrp ++ data
  let polymod := (_bech32_polymod_step (values ++ [0, 0, 0, 0, 0, 0])) ^^^ 1
  (List.range 6).map (fun i => (polymod >>> (5 * (5 - i))) &&& 31)

/-- Inner emission loop of _convertbits: while bits ≥ tobits emit the next
group; structural fuel recursion with fuel = bits. -/
def convertEmit (tobits maxv acc : Nat) : Nat → Nat → List Nat
  | 0, _ => []
  | fuel + 1, bits =>
    if bits ≥ tobits then
      let bits' := bits - tobits
      ((acc >>> bits') &&& maxv) :: convertEmit tobits maxv acc fuel bits'
    else []

/-- Final bit count after the emission loop. -/
def convertRest (tobits : Nat) : Nat → Nat → Nat
  | 0, bits => bits
  | fuel + 1, bits => if bits ≥ tobits then convertRest tobits fuel (bits - tobits) else bits

/-- parser._convertbits with pad=True (the only way the source calls it). -/
def _convertbits (data : List Nat) (frombits tobits : Nat) : Option (List Nat) :=
  let maxv := (1 <<< tobits) - 1
  let max_acc := (1 <<< (frombits + tobits - 1)) - 1
  let step := fun (st : Option (Nat × Nat × List Nat)) value =>
    match st with
    | none => none
    | some (acc, bits, ret) =>
      if value >>> frombits ≠ 0 then none
      else
        let acc' := ((acc <<< frombits) ||| value) &&& max_acc
        let bits' := bits + frombits
        some (acc', convertRest tobits bits' bits',
          ret ++ convertEmit tobits maxv acc' bits' bits')
  match data.foldl step (some (0, 0, [])) with
  | none => none
  | some (acc, bits, ret) =>
    some (if bits ≠ 0 then ret ++ [(acc <<< (tobits - bits)) &&& maxv] else ret)

/-- parser._encode_bech32; all internal failures (including a None from
_convertbits, or an out-of-range charset index) are caught and become None.
The source computes the same _convertbits conversion twice and a dead
polymod value named spec; both collapse to the single conversion here. -/
def _encode_bech32 (hrp : String) (witver : Nat) (witprog : List Byte) : Option String :=
  match _convertbits (witprog.map Fin.val) 8 5 with
  | none => none
  | some conv =>
    let data := witver :: conv
    let checksum := _bech32_create_checksum hrp data
    let all := data ++ checksum
    if all.all (fun d => d < 32) then
      some (hrp ++ "1" ++ String.mk (all.map (fun d => _bech32_charset.getD d 'q')))
    else none

/-- parser.decode_address: recognise the script templates in source order
and derive an address; `.error` marks the only uncaught exception path
(bytes.fromhex on a non-hex slice in the two bech32 branches). -/
def decode_address (coin : String) (script_hex : String) : Except PyErr (Option String) :=
  if script_hex = "" then .ok none
  else
    if script_hex.data.length = 50 ∧ "76a914".data.isPrefixOf script_hex.data
        ∧ "88ac".data.isSuffixOf script_hex.data then
      .ok (_encode_address (if coin = "litecoin" then [byte 0x30] else [byte 0x00])
        ((script_hex.data.drop 6).take (script_hex.data.length - 10)))
    else if script_hex.data.length = 46 ∧ "a914".data.isPrefixOf script_hex.data
        ∧ "87".data.isSuffixOf script_hex.data then
      .ok (_encode_address (if coin = "litecoin" then [byte 0x32] else [byte 0x05])
        ((script_hex.data.drop 4).take (script_hex.data.length - 6)))
    else if "ac".data.isSuffixOf script_hex.data
        ∧ (script_hex.data.length = 68 ∨ script_hex.data.length = 136) then
      match fromhexChars (script_hex.data.take (script_hex.data.length - 2)) with
      | none => .ok none
      | some pb =>
        if pb.length = 33 ∨ pb.length = 65 then
          .ok (_encode_address
            (if coin = "litecoin" then [byte 0x30] else [byte 0x00])
            (bytesToHexChars ((sha256B (ripemd160B (sha256B pb))).take 20)))
        else .ok none
    else if script_hex.data.length = 44 ∧ "0014".data.isPrefixOf script_hex.data then
      if coin = "bitcoin" then
        match fromhexChars (script_hex.data.drop 4) with
        | none => .error .valueError
        | some prog => .ok (_encode_bech32 "bc" 0 prog)
      else if coin = "litecoin" then
        match fromhexChars (script_hex.data.drop 4) with
        | none => .error .valueError
        | some prog => .ok (_encode_bech32 "ltc" 0 prog)
      else .ok none
    else if script_hex.data.length = 68 ∧ "0020".data.isPrefixOf script_hex.data then
      if coin = "bitcoin" then
        match fromhexChars (script_hex.data.drop 4) with
        | none => .error .valueError
        | some prog => .ok (_encode_bech32 "bc" 0 prog)
      else if coin = "litecoin" then
        match fromhexChars (script_hex.data.drop 4) with
        | none => .error .valueError
        | some prog => .ok (_encode_bech32 "ltc" 0 prog)
      else .ok none
    else if "6a".data.isPrefixOf script_hex.data then .ok none
    else .ok none

set_option maxRecDepth 1000000 in
/-- Spec scenario S3: the genesis P2PKH script decodes to the well-known
address, validating SHA-256 and Base58Check end to end. -/
theorem decode_address_scenario_S3 :
    decode_address "bitcoin" "76a91462e907b15cbf27d5425399ebf6f0fb50ebb88f1888ac"
      = .ok (some "1A1zP1eP5QGefi2DMPTfTL5SLmv7DivfNa") := by
  rfl

set_option maxRecDepth 1000000 in
/-- Spec scenario S5: the standard P2WPKH test script decodes to the BIP-173
example address, validating the bech32 encoder end to end. -/
theorem decode_address_scenario_S5 :
    decode_address "bitcoin" "0014751e76e8199196d454941c45d1b3a323f1433bd6"
      = .ok (some "bc1qw508d6qejxtdg4y5r3zarvary0c5xw7kv8f3t4") := by
  rfl

instance [DecidableEq e] [DecidableEq a] : DecidableEq (Except e a) := fun x y =>
  match x, y with
  | .error u, .error v =>
    if h : u = v then .isTrue (by rw [h]) else .isFalse (by intro hh; cases hh; exact h rfl)
  | .ok u, .ok v =>
    if h : u = v then .isTrue (by rw [h]) else .isFalse (by intro hh; cases hh; exact h rfl)
  | .error _, .ok _ => .isFalse (by intro hh; cases hh)
  | .ok _, .error _ => .isFalse (by intro hh; cases hh)

/-- The spec's P2PK address derivation, stated in its own words: hash160
(RIPEMD-160 of SHA-256) of the public key, then P2PKH Base58Check encoding
with the coin's version byte and 4-byte double-SHA-256 checksum. -/
def spec_p2pkh_of_hash160 (coin : String) (pubkey : List Byte) : String :=
  let h := ripemd160B (sha256B pubkey)
  let payload := (if coin = "litecoin" then [byte 0x30] else [byte 0x00]) ++ h
  b58encode (payload ++ (sha256B (sha256B payload)).take 4)

/-- A concrete 33-byte (compressed-format) public key. -/
def c1Pk33 : List Byte := byte 2 :: List.replicate 32 (byte 7)

/-- A concrete 65-byte (uncompressed-format) public key. -/
def c1Pk65 : List Byte := byte 4 :: List.replicate 64 (byte 7)

set_option maxRecDepth 1000000 in
/-- C1: evaluation at the failing inputs. For a 33-byte-pubkey P2PK script
the code derives its address from sha256(ripemd160(sha256(pk))) truncated to
20 bytes, not from hash160(pk) as the claim states, so the address differs
from the spec's P2PKH address; and for a 65-byte-pubkey P2PK script (hex
length 132, not 68 or 136) the code returns null. -/
theorem decode_address_p2pk_C1 :
    decode_address "bitcoin" (bytesToHex (c1Pk33 ++ [byte 0xac]))
        ≠ .ok (some (spec_p2pkh_of_hash160 "bitcoin" c1Pk33))
    ∧ decode_address "bitcoin" (bytesToHex (c1Pk33 ++ [byte 0xac]))
        = .ok (_encode_address [byte 0x00]
            (bytesToHexChars ((sha256B (ripemd160B (sha256B c1Pk33))).take 20)))
    ∧ decode_address "bitcoin" (bytesToHex (c1Pk65 ++ [byte 0xac])) = .ok none
    ∧ (bytesToHex (c1Pk65 ++ [byte 0xac])).length = 132 := by
  exact ⟨by decide, by rfl, by rfl, by rfl⟩

/-- Hex strings of even length always parse with bytes.fromhex. -/
theorem fromhex_hex_even : ∀ cs : List Char,
    (cs.all fun c => (hexVal c).isSome) = true → cs.length % 2 = 0 →
    (fromhexChars cs).isSome = true
  | [] => fun _ _ => rfl
  | [c] => fun _ hl => by simp at hl
  | c1 :: c2 :: rest => fun h hl => by
    simp only [List.all_cons, Bool.and_eq_true] at h
    obtain ⟨h1, h2, h3⟩ := h
    have hlr : rest.length % 2 = 0 := by simp [List.length_cons] at hl; omega
    have ih := fromhex_hex_even rest h3 hlr
    obtain ⟨v1, hv1⟩ := Option.isSome_iff_exists.mp h1
    obtain ⟨v2, hv2⟩ := Option.isSome_iff_exists.mp h2
    obtain ⟨bs, hbs⟩ := Option.isSome_iff_exists.mp ih
    simp [fromhexChars, hv1, hv2, hbs]

/-- Hexness is preserved by drop. -/
theorem all_drop {p : Char → Bool} (cs : List Char) (n : Nat) (h : cs.all p = true) :
    ((cs.drop n).all p) = true := by
  rw [List.all_eq_true] at h ⊢
  exact fun x hx => h x (List.mem_of_mem_drop hx)

/-- Hexness is preserved by take. -/
theorem all_take {p : Char → Bool} (cs : List Char) (n : Nat) (h : cs.all p = true) :
    ((cs.take n).all p) = true := by
  rw [List.all_eq_true] at h ⊢
  exact fun x hx => h x (List.mem_of_mem_take hx)

/-- The spec's recognised script templates, as predicates on the hex
character string (the source's branch guards in order of test). -/
def spec_matches_template (cs : List Char) : Prop :=
  (cs.length = 50 ∧ "76a914".data.isPrefixOf cs ∧ "88ac".data.isSuffixOf cs)
  ∨ (cs.length = 46 ∧ "a914".data.isPrefixOf cs ∧ "87".data.isSuffixOf cs)
  ∨ ("ac".data.isSuffixOf cs ∧ (cs.length = 68 ∨ cs.length = 136))
  ∨ (cs.length = 44 ∧ "0014".data.isPrefixOf cs)
  ∨ (cs.length = 68 ∧ "0020".data.isPrefixOf cs)
  ∨ "6a".data.isPrefixOf cs

instance (cs : List Char) : Decidable (spec_matches_template cs) := by
  unfold spec_matches_template
  infer_instance

/-- A prefix fixes the first two characters. -/
theorem take_two_of_pfx {pfx cs : List Char} (h : pfx.isPrefixOf cs = true)
    (hlen : 2 ≤ pfx.length) : cs.take 2 = pfx.take 2 := by
  obtain ⟨t, ht⟩ := List.isPrefixOf_iff_prefix.mp h
  rw [← ht, List.take_append_of_le_length hlen]

/-- decode_address never raises on a hex-digit input: every branch either
guards its bytes.fromhex in a try/except or, in the two bech32 branches,
applies it to an even-length all-hex slice. -/
theorem decode_address_hex_total (coin s : String) (h : isHexStr s = true) :
  ∃ r, decode_address coin s = .ok r := by
  have hx : (s.data.all fun c => (hexVal c).isSome) = true := h
  by_cases he : s = ""
  · exact ⟨none, by rw [he]; rfl⟩
  · unfold decode_address
    rw [if_neg he]
    by_cases hb1 : s.data.length = 50 ∧ "76a914".data.isPrefixOf s.data
        ∧ "88ac".data.isSuffixOf s.data
    · exact ⟨_, by rw [if_pos hb1]⟩
    rw [if_neg hb1]
    by_cases hb2 : s.data.length = 46 ∧ "a914".data.isPrefixOf s.data
        ∧ "87".data.isSuffixOf s.data
    · exact ⟨_, by rw [if_pos hb2]⟩
    rw [if_neg hb2]
    by_cases hb3 : "ac".data.isSuffixOf s.data
        ∧ (s.data.length = 68 ∨ s.data.length = 136)
    · rw [if_pos hb3]
      cases hfh : fromhexChars (s.data.take (s.data.length - 2)) with
      | none => exact ⟨none, rfl⟩
      | some pb =>
        split <;> first
        | exact ⟨_, rfl⟩
        | (split <;> exact ⟨_, rfl⟩)
    rw [if_neg hb3]
    by_cases hb4 : s.data.length = 44 ∧ "0014".data.isPrefixOf s.data
    · rw [if_pos hb4]
      have hs : (fromhexChars (s.data.drop 4)).isSome = true := by
        apply fromhex_hex_even
        · exact all_drop _ _ hx
        · rw [List.length_drop, hb4.1]
      obtain ⟨prog, hprog⟩ := Option.isSome_iff_exists.mp hs
      by_cases hc : coin = "bitcoin"
      · rw [if_pos hc, hprog]
        exact ⟨_, rfl⟩
      · rw [if_neg hc]
        by_cases hc2 : coin = "litecoin"
        · rw [if_pos hc2, hprog]
          exact ⟨_, rfl⟩
        · rw [if_neg hc2]
          exact ⟨none, rfl⟩
    rw [if_neg hb4]
    by_cases hb5 : s.data.length = 68 ∧ "0020".data.isPrefixOf s.data
    · rw [if_pos hb5]
      have hs : (fromhexChars (s.data.drop 4)).isSome = true := by
        apply fromhex_hex_even
        · exact all_drop _ _ hx
        · rw [List.length_drop, hb5.1]
      obtain ⟨prog, hprog⟩ := Option.isSome_iff_exists.mp hs
      by_cases hc : coin = "bitcoin"
      · rw [if_pos hc, hprog]
        exact ⟨_, rfl⟩
      · rw [if_neg hc]
        by_cases hc2 : coin = "litecoin"
        · rw [if_pos hc2, hprog]
          exact ⟨_, rfl⟩
        · rw [if_neg hc2]
          exact ⟨none, rfl⟩
    rw [if_neg hb5]
    by_cases hb6 : "6a".data.isPrefixOf s.data
    · rw [if_pos hb6]
      exact ⟨none, rfl⟩
    · rw [if_neg hb6]
      exact ⟨none, rfl⟩
/-- C10 (amended): on hex-digit inputs decode_address is total (never
raises); it returns null on the empty string, on scripts beginning with 6a
that do not fall into the earlier P2PK branch (hex length 68 or 136 ending
in "ac"), and on scripts matching none of the recognised templates. -/
theorem decode_address_total_C10 (coin s : String) (h : isHexStr s = true) :
    (∃ r, decode_address coin s = .ok r)
    ∧ decode_address coin "" = .ok none
    ∧ (s.data.take 2 = ['6', 'a'] →
        ¬("ac".data.isSuffixOf s.data ∧ (s.data.length = 68 ∨ s.data.length = 136)) →
        decode_address coin s = .ok none)
    ∧ (¬spec_matches_template s.data → decode_address coin s = .ok none) := by
  have hx : (s.data.all fun c => (hexVal c).isSome) = true := h
  refine ⟨decode_address_hex_total coin s h, rfl, ?_, ?_⟩
  · intro h6a hnp
    have he : ¬s = "" := by
      intro he
      rw [he] at h6a
      exact absurd h6a (by decide)
    unfold decode_address
    rw [if_neg he]
    have hb1 : ¬(s.data.length = 50 ∧ "76a914".data.isPrefixOf s.data
        ∧ "88ac".data.isSuffixOf s.data) := by
      rintro ⟨-, hp, -⟩
      have ht := take_two_of_pfx hp (by decide)
      rw [h6a] at ht
      exact absurd ht (by decide)
    rw [if_neg hb1]
    have hb2 : ¬(s.data.length = 46 ∧ "a914".data.isPrefixOf s.data
        ∧ "87".data.isSuffixOf s.data) := by
      rintro ⟨-, hp, -⟩
      have ht := take_two_of_pfx hp (by decide)
      rw [h6a] at ht
      exact absurd ht (by decide)
    rw [if_neg hb2, if_neg hnp]
    have hb4 : ¬(s.data.length = 44 ∧ "0014".data.isPrefixOf s.data) := by
      rintro ⟨-, hp⟩
      have ht := take_two_of_pfx hp (by decide)
      rw [h6a] at ht
      exact absurd ht (by decide)
    rw [if_neg hb4]
    have hb5 : ¬(s.data.length = 68 ∧ "0020".data.isPrefixOf s.data) := by
      rintro ⟨-, hp⟩
      have ht := take_two_of_pfx hp (by decide)
      rw [h6a] at ht
      exact absurd ht (by decide)
    rw [if_neg hb5]
    have hb6 : "6a".data.isPrefixOf s.data = true := by
      rw [List.isPrefixOf_iff_prefix, List.prefix_iff_eq_take]
      exact h6a.symm
    rw [if_pos hb6]
  · intro ht
    by_cases he : s = ""
    · rw [he]
      rfl
    · unfold spec_matches_template at ht
      push_neg at ht
      obtain ⟨ht1, ht2, ht3, ht4, ht5, ht6⟩ := ht
      have hb1 : ¬(s.data.length = 50 ∧ "76a914".data.isPrefixOf s.data
          ∧ "88ac".data.isSuffixOf s.data) := by
        rintro ⟨a, b, c⟩
        exact ht1 a b c
      have hb2 : ¬(s.data.length = 46 ∧ "a914".data.isPrefixOf s.data
          ∧ "87".data.isSuffixOf s.data) := by
        rintro ⟨a, b, c⟩
        exact ht2 a b c
      have hb3 : ¬("ac".data.isSuffixOf s.data
          ∧ (s.data.length = 68 ∨ s.data.length = 136)) := by
        rintro ⟨a, b | b⟩
        · exact (ht3 a).1 b
        · exact (ht3 a).2 b
      have hb4 : ¬(s.data.length = 44 ∧ "0014".data.isPrefixOf s.data) := by
        rintro ⟨a, b⟩
        exact ht4 a b
      have hb5 : ¬(s.data.length = 68 ∧ "0020".data.isPrefixOf s.data) := by
        rintro ⟨a, b⟩
        exact ht5 a b
      unfold decode_address
      rw [if_neg he, if_neg hb1, if_neg hb2, if_neg hb3, if_neg hb4, if_neg hb5,
        if_neg ht6]

/-- Witness for the C10 theorem at a concrete input: "6a01" is hex, and
decode_address returns null on it without raising. -/
theorem decode_address_total_C10_witness :
    isHexStr "6a01" = true ∧ decode_address "bitcoin" "6a01" = .ok none := by
  refine ⟨by decide, ?_⟩
  exact (decode_address_total_C10 "bitcoin" "6a01" (by decide)).2.2.1
    (by decide) (by decide)

/-- An OP_RETURN-leading script of hex length 68 that ends in "ac". -/
def c10Script : List Byte := byte 0x6a :: (List.replicate 32 (byte 0) ++ [byte 0xac])

set_option maxRecDepth 1000000 in
/-- C10 counterexample: a script beginning with 0x6a whose hex has length 68
and ends in "ac" falls into the P2PK branch first and decodes to a non-null
address, refuting "decode_address returns null for any script beginning with
0x6a". -/
theorem decode_address_C10_counterexample :
    (bytesToHex c10Script).data.take 2 = ['6', 'a']
    ∧ decode_address "bitcoin" (bytesToHex c10Script) ≠ .ok none := by
  exact ⟨by rfl, by decide⟩

/-- Floor of log2 (fuel-structural so the kernel can reduce it; fuel `n`
always suffices). -/
def log2F : Nat → Nat → Nat
  | 0, _ => 0
  | fuel + 1, n => if n ≥ 2 then log2F fuel (n / 2) + 1 else 0

/-- Floor of log2 of a positive natural. -/
def lg2 (n : Nat) : Nat := log2F n n

/-- An unreduced non-negative rational: `num / den` with `den ≥ 1`. All the
exact values the binary64 model manipulates are of this shape. -/
structure PRat where
  num : Nat
  den : Nat
deriving DecidableEq, Repr

/-- Floor of log2 of the positive rational a/b (a, b ≥ 1). -/
def floorLog2Rat (a b : Nat) : Int :=
  let la := lg2 a
  let lb := lg2 b
  if la ≥ lb then
    if 2 ^ (la - lb) * b ≤ a then (la - lb : Nat) else ((la - lb : Nat) : Int) - 1
  else
    if b ≤ a * 2 ^ (lb - la) then -((lb - la : Nat) : Int) else -((lb - la : Nat) : Int) - 1

/-- Round N/D (D ≥ 1) to the nearest integer, ties to even. -/
def roundHalfEven (N D : Nat) : Nat :=
  let q := N / D
  let r := N % D
  if 2 * r < D then q
  else if 2 * r > D then q + 1
  else if q % 2 = 0 then q else q + 1

/-- Round a positive rational to the nearest IEEE binary64 value
(round-to-nearest, ties-to-even; the exponent range is taken as unbounded,
which is exact for every quantity this program manipulates). The result is
the canonical pair (m, 2^(52-k)) or (m·2^(k-52), 1) with m the rounded
53-bit significand, so equal values yield equal pairs. -/
def flPos (q : PRat) : PRat :=
  let k := floorLog2Rat q.num q.den
  let s := 52 - k
  let N := if s ≥ 0 then q.num * 2 ^ s.toNat else q.num
  let D := if s ≥ 0 then q.den else q.den * 2 ^ (-s).toNat
  let m := roundHalfEven N D
  if k - 52 ≥ 0 then ⟨m * 2 ^ (k - 52).toNat, 1⟩
  else ⟨m, 2 ^ (52 - k).toNat⟩

/-- The IEEE binary64 value nearest to an exact non-negative rational
(Python float rounding). -/
def pyFloat (q : PRat) : PRat := if q.num = 0 then ⟨0, 1⟩ else flPos q

/-- Python v / 1e8 on an integer v: v is converted to binary64, divided by
the exactly representable 1e8, and the quotient rounded to binary64. -/
def pyDivSat (v : Nat) : PRat :=
  let vf := pyFloat ⟨v, 1⟩
  pyFloat ⟨vf.num, vf.den * 100000000⟩

/-- Python int(value * 1e8) for a binary64 `value`: binary64 multiplication
then truncation toward zero (all values here are non-negative). -/
def pyMulSatInt (value : PRat) : Nat :=
  let p := pyFloat ⟨value.num * 100000000, value.den⟩
  p.num / p.den

/-- The satoshi round trip the transaction re-serialiser performs:
int((v / 1e8) * 1e8). -/
def pySatRoundTrip (v : Nat) : Nat := pyMulSatInt (pyDivSat v)

/-- Validation of the binary64 model against CPython results: 3 satoshis
round-trip to 2 (likewise 6 to 5 and 12 to 11), while 0, 1, 2, 4, 5, 100,
one whole coin and the 21-million-coin cap survive. -/
theorem pySatRoundTrip_validation :
    pySatRoundTrip 0 = 0 ∧ pySatRoundTrip 1 = 1 ∧ pySatRoundTrip 2 = 2
    ∧ pySatRoundTrip 3 = 2 ∧ pySatRoundTrip 4 = 4 ∧ pySatRoundTrip 5 = 5
    ∧ pySatRoundTrip 6 = 5 ∧ pySatRoundTrip 12 = 11 ∧ pySatRoundTrip 100 = 100
    ∧ pySatRoundTrip 100000000 = 100000000
    ∧ pySatRoundTrip 2099999999999999 = 2099999999999999 := by
  refine ⟨rfl, ?_, ?_, ?_, ?_, ?_, ?_, ?_, ?_, ?_, ?_⟩ <;> rfl

/-- One transaction input as the parser stores it. -/
structure VIn where
  txid : String
  vout : Nat
  scriptSig : String
  sequence : Nat
  witness : Option (List String)
deriving DecidableEq, Repr

/-- One transaction output as the parser stores it; `value` is the Python
float obtained by dividing the satoshi amount by 1e8. -/
structure VOut where
  value : PRat
  scriptPubKey : String
  address : Option String
  n : Nat
deriving DecidableEq, Repr

/-- One transaction as the parser stores it. -/
structure Tx where
  version : Nat
  vin : List VIn
  vout : List VOut
  locktime : Nat
  txid : String
deriving DecidableEq, Repr

instance : Inhabited Tx := ⟨⟨0, [], [], 0, ""⟩⟩

/-- parser.read_hash_sync: 32 bytes (fewer at EOF, without error),
byte-reversed, as hex. -/
def read_hash_sync (f : Cursor) : String × Cursor :=
  let (bs, f') := f.read 32
  (bytesToHex bs.reverse, f')

/-- A parsed block header. -/
structure Header where
  version : Nat
  previous_block_hash : String
  merkle_root : String
  timestamp : Nat
  bits : Nat
  nonce : Nat
deriving DecidableEq, Repr

instance : Inhabited Header := ⟨⟨0, "", "", 0, 0, 0⟩⟩

/-- parser.read_block_header_sync. -/
def read_block_header_sync (f : Cursor) : Except PyErr (Header × Cursor) :=
  match readLE f 4 with
  | .error e => .error e
  | .ok (version, f) =>
    let (prev, f) := read_hash_sync f
    let (merkle, f) := read_hash_sync f
    match readLE f 4 with
    | .error e => .error e
    | .ok (timestamp, f) =>
      match readLE f 4 with
      | .error e => .error e
      | .ok (bits, f) =>
        match readLE f 4 with
        | .error e => .error e
        | .ok (nonce, f) => .ok (⟨version, prev, merkle, timestamp, bits, nonce⟩, f)

/-- The vin-reading loop of parse_transaction_sync. A None from
read_varint_sync for the script length makes Python read the remainder of
the stream and then fail on the following 4-byte sequence read; that path
is collapsed to the struct.error it always ends in. -/
def readVins (fuel : Nat) (f : Cursor) : Except PyErr (List VIn × Cursor) :=
  match fuel with
  | 0 => .ok ([], f)
  | n + 1 =>
    let (txid, f) := read_hash_sync f
    match readLE f 4 with
    | .error e => .error e
    | .ok (vout, f) =>
      match read_varint_sync f with
      | .error e => .error e
      | .ok (none, _) => .error .structError
      | .ok (some script_len, f) =>
        let (sb, f) := f.read script_len
        match readLE f 4 with
        | .error e => .error e
        | .ok (sequence, f) =>
          match readVins n f with
          | .error e => .error e
          | .ok (rest, f) =>
            .ok (⟨txid, vout, bytesToHex sb, sequence, none⟩ :: rest, f)

/-- The vout-reading loop of parse_transaction_sync, numbering outputs from
`idx`. As in readVins, a None script length collapses to the struct.error
Python ends in. -/
def readVouts (coin : String) (fuel idx : Nat) (f : Cursor) :
    Except PyErr (List VOut × Cursor) :=
  match fuel with
  | 0 => .ok ([], f)
  | n + 1 =>
    match readLE f 8 with
    | .error e => .error e
    | .ok (v, f) =>
      match read_varint_sync f with
      | .error e => .error e
      | .ok (none, _) => .error .structError
      | .ok (some script_len, f) =>
        let (sb, f) := f.read script_len
        match decode_address coin (bytesToHex sb) with
        | .error e => .error e
        | .ok addr =>
          match readVouts coin n (idx + 1) f with
          | .error e => .error e
          | .ok (rest, f) =>
            .ok (⟨pyDivSat v, bytesToHex sb, addr, idx⟩ :: rest, f)

/-- The witness-item loop for one input: item_count items, each a varint
length followed by that many bytes (at EOF Python reads None → the rest of
the stream, without failing). -/
def readWitnessItems (fuel : Nat) (f : Cursor) : Except PyErr (List String × Cursor) :=
  match fuel with
  | 0 => .ok ([], f)
  | n + 1 =>
    match read_varint_sync f with
    | .error e => .error e
    | .ok (none, f) =>
      let (bs, f) := f.read (f.data.length - f.pos)
      match readWitnessItems n f with
      | .error e => .error e
      | .ok (rest, f) => .ok (bytesToHex bs :: rest, f)
    | .ok (some item_len, f) =>
      let (bs, f) := f.read item_len
      match readWitnessItems n f with
      | .error e => .error e
      | .ok (rest, f) => .ok (bytesToHex bs :: rest, f)

/-- The witness-reading loop of parse_transaction_sync: for each vin, an
item count varint (None → range(None) TypeError) then the items. -/
def readWitnesses (vins : List VIn) (f : Cursor) : Except PyErr (List VIn × Cursor) :=
  match vins with
  | [] => .ok ([], f)
  | v :: rest =>
    match read_varint_sync f with
    | .error e => .error e
    | .ok (none, _) => .error .typeError
    | .ok (some n_items, f) =>
      match readWitnessItems n_items f with
      | .error e => .error e
      | .ok (items, f) =>
        match readWitnesses rest f with
        | .error e => .error e
        | .ok (vs, f) => .ok ({ v with witness := some items } :: vs, f)

/-- Legacy re-serialisation of one input, as the segwit branch of
parse_transaction_sync writes it back from the parsed dictionary. -/
def serializeVinLegacy (v : VIn) : Except PyErr (List Byte) :=
  match fromhexStr v.txid with
  | none => .error .valueError
  | some tb =>
    match fromhexStr v.scriptSig with
    | none => .error .valueError
    | some sb =>
      .ok (tb.reverse ++ lePack 4 v.vout
        ++ (if sb.length < 0xfd then [byte sb.length] else _write_varint sb.length)
        ++ sb ++ lePack 4 v.sequence)

/-- Legacy re-serialisation of the input list. -/
def serializeVinsLegacy : List VIn → Except PyErr (List Byte)
  | [] => .ok []
  | v :: rest =>
    match serializeVinLegacy v, serializeVinsLegacy rest with
    | .ok b, .ok bs => .ok (b ++ bs)
    | .error e, _ => .error e
    | _, .error e => .error e

/-- Legacy re-serialisation of one output: the satoshi value is recovered as
int(value * 1e8) from the stored float, which is where the round trip can
lose precision; struct.pack('<Q', ...) fails above 2^64 - 1. -/
def serializeVoutLegacy (o : VOut) : Except PyErr (List Byte) :=
  let valInt := pyMulSatInt o.value
  if valInt < 18446744073709551616 then
    match fromhexStr o.scriptPubKey with
    | none => .error .valueError
    | some sb =>
      .ok (lePack 8 valInt
        ++ (if sb.length < 0xfd then [byte sb.length] else _write_varint sb.length)
        ++ sb)
  else .error .structError

/-- Legacy re-serialisation of the output list. -/
def serializeVoutsLegacy : List VOut → Except PyErr (List Byte)
  | [] => .ok []
  | o :: rest =>
    match serializeVoutLegacy o, serializeVoutsLegacy rest with
    | .ok b, .ok bs => .ok (b ++ bs)
    | .error e, _ => .error e
    | _, .error e => .error e

/-- The full legacy form the segwit branch of parse_transaction_sync
re-serialises: version, vin count, vins, vout count, vouts, locktime, with
no marker, flag or witness bytes. -/
def legacySerialization (version : Nat) (vins : List VIn) (vouts : List VOut)
    (locktime : Nat) : Except PyErr (List Byte) :=
  match serializeVinsLegacy vins, serializeVoutsLegacy vouts with
  | .ok vb, .ok ob =>
    .ok (lePack 4 version
      ++ (if vins.length < 0xfd then [byte vins.length] else _write_varint vins.length)
      ++ vb
      ++ (if vouts.length < 0xfd then [byte vouts.length] else _write_varint vouts.length)
      ++ ob ++ lePack 4 locktime)
  | .error e, _ => .error e
  | _, .error e => .error e

/-- The double-SHA-256 transaction/block identifier: byte-reversed hex. -/
def txidOf (raw : List Byte) : String := bytesToHex (sha256B (sha256B raw)).reverse

/-- parser.parse_transaction_sync. For a segwit transaction the source
leaves the cursor back at `start` (it only seeks, never re-reads), which is
reproduced here. -/
def parse_transaction_sync (coin : String) (f : Cursor) : Except PyErr (Tx × Cursor) :=
  let start := f.tell
  match readLE f 4 with
  | .error e => .error e
  | .ok (version, f) =>
    let (marker, f) := f.read 1
    let sw :=
      if marker = [byte 0] then
        let (flag, f2) := f.read 1
        if flag = [byte 1] then (true, f2)
        else (false, f2.seekBack 2)
      else (false, f.seekBack 1)
    match read_varint_sync sw.2 with
    | .error e => .error e
    | .ok (none, _) => .error .typeError
    | .ok (some vin_count, f) =>
      match readVins vin_count f with
      | .error e => .error e
      | .ok (vins, f) =>
        match read_varint_sync f with
        | .error e => .error e
        | .ok (none, _) => .error .typeError
        | .ok (some vout_count, f) =>
          match readVouts coin vout_count 0 f with
          | .error e => .error e
          | .ok (vouts, f) =>
            match (if sw.1 then readWitnesses vins f else .ok (vins, f)) with
            | .error e => .error e
            | .ok (vins, f) =>
              match readLE f 4 with
              | .error e => .error e
              | .ok (locktime, f) =>
                let endPos := f.tell
                let f := f.seekAbs start
                if sw.1 then
                  match legacySerialization version vins vouts locktime with
                  | .error e => .error e
                  | .ok raw =>
                    .ok (⟨version, vins, vouts, locktime, txidOf raw⟩, f)
                else
                  let (raw, f) := f.read (endPos - start)
                  .ok (⟨version, vins, vouts, locktime, txidOf raw⟩, f)

/-- The transaction loop of parse_block_sync: parse up to `fuel`
transactions and stop at the first decode error, keeping the prefix. -/
def txLoop (coin : String) (fuel : Nat) (f : Cursor) : List Tx × Cursor :=
  match fuel with
  | 0 => ([], f)
  | n + 1 =>
    match parse_transaction_sync coin f with
    | .error _ => ([], f)
    | .ok (t, f') =>
      let (ts, f'') := txLoop coin n f'
      (t :: ts, f'')

/-- parser._extract_height_from_coinbase (BIP-34 height recovery). -/
def _extract_height_from_coinbase (t : Tx) : Option Nat :=
  match t.vin with
  | [] => none
  | v :: _ =>
    if v.scriptSig = "" then none
    else
      match fromhexStr v.scriptSig with
      | none => none
      | some script =>
        match script with
        | [] => none
        | p :: restBytes =>
          if p.1 < 1 ∨ p.1 > script.length - 1 ∨ p.1 > 8 then none
          else some (leNat (restBytes.take p.1))

/-- A parsed block record. -/
structure Block where
  height : Option Nat
  hash : String
  coin : String
  timestamp : Nat
  tx_count : Nat
  header : Header
  tx : List Tx
deriving DecidableEq, Repr

instance : Inhabited Block := ⟨⟨none, "", "", 0, 0, default, []⟩⟩

/-- parser.parse_block_sync: hash the first 80 bytes, rewind, parse header
and transactions (stopping at the first transaction error), and infer the
height from the coinbase when the caller supplied none; header-level
failures are swallowed by the outer try and yield None. -/
def parse_block_sync (coin : String) (raw : List Byte) (height : Option Nat) :
    Option Block :=
  let r80 := Cursor.read ⟨raw, 0⟩ 80
  let block_hash := bytesToHex (sha256B (sha256B r80.1)).reverse
  match read_block_header_sync (r80.2.seekAbs 0) with
  | .error _ => none
  | .ok (header, f) =>
    match read_varint_sync f with
    | .error _ => none
    | .ok (none, _) => none
    | .ok (some tx_count, f) =>
      let txs := (txLoop coin tx_count f).1
      let height' :=
        match height, txs with
        | none, t :: _ => _extract_height_from_coinbase t
        | _, _ => height
      some ⟨height', block_hash, coin, header.timestamp, txs.length, header, txs⟩

/-- A concrete segwit transaction: one input (prev txid 11…11, vout 0, empty
scriptSig, sequence 0xffffffff), one output of 3 satoshis with an empty
scriptPubKey, no witness items, locktime 0. -/
def c2SegwitRaw : List Byte :=
  lePack 4 1 ++ [byte 0, byte 1] ++ [byte 1]
    ++ List.replicate 32 (byte 0x11) ++ lePack 4 0 ++ [byte 0]
    ++ lePack 4 0xffffffff
    ++ [byte 1] ++ lePack 8 3 ++ [byte 0]
    ++ [byte 0] ++ lePack 4 0

/-- The same transaction serialised in legacy form with its true 3-satoshi
value. -/
def c2LegacyTrue : List Byte :=
  lePack 4 1 ++ [byte 1]
    ++ List.replicate 32 (byte 0x11) ++ lePack 4 0 ++ [byte 0]
    ++ lePack 4 0xffffffff
    ++ [byte 1] ++ lePack 8 3 ++ [byte 0] ++ lePack 4 0

/-- The legacy serialisation the code actually hashes: the value came back
as int(3/1e8*1e8) = 2 satoshis. -/
def c2LegacyAltered : List Byte :=
  lePack 4 1 ++ [byte 1]
    ++ List.replicate 32 (byte 0x11) ++ lePack 4 0 ++ [byte 0]
    ++ lePack 4 0xffffffff
    ++ [byte 1] ++ lePack 8 2 ++ [byte 0] ++ lePack 4 0

set_option maxRecDepth 1000000 in
set_option maxHeartbeats 2000000 in
/-- C2: evaluation at the failing input. Parsing the segwit transaction
with a 3-satoshi output stores a txid computed over a re-serialisation in
which the value came back as int(3/1e8*1e8) = 2 satoshis, so the stored
txid is the double-SHA-256 of the altered bytes and differs from the
double-SHA-256 of the true legacy serialisation; parsing the same fields
from a legacy stream stores the correct hash. -/
theorem parse_transaction_txid_C2 :
    ((parse_transaction_sync "bitcoin" ⟨c2SegwitRaw, 0⟩).toOption.map
        (fun p => p.1.txid))
      = some "d2d6d2c1099de9ad073124c14d16d03d864e15a63ba1b4e97a5dffe6b65fc0e6"
    ∧ txidOf c2LegacyAltered
      = "d2d6d2c1099de9ad073124c14d16d03d864e15a63ba1b4e97a5dffe6b65fc0e6"
    ∧ txidOf c2LegacyTrue
      = "bf777a6e1bfc166ad25c397da774803a9772a1f6d8aaef2a9093a5dd0dc3a2d9"
    ∧ ((parse_transaction_sync "bitcoin" ⟨c2LegacyTrue, 0⟩).toOption.map
        (fun p => p.1.txid))
      = some "bf777a6e1bfc166ad25c397da774803a9772a1f6d8aaef2a9093a5dd0dc3a2d9"
    ∧ ("d2d6d2c1099de9ad073124c14d16d03d864e15a63ba1b4e97a5dffe6b65fc0e6" : String)
      ≠ "bf777a6e1bfc166ad25c397da774803a9772a1f6d8aaef2a9093a5dd0dc3a2d9" := by
  exact ⟨by decide, by decide, by decide, by decide, by decide⟩

/-- C5: whenever parse_block_sync returns a record for a raw frame of at
least 80 bytes, its hash field is the byte-reversed double-SHA-256 of
exactly the first 80 bytes, in lowercase hex. -/
theorem parse_block_hash_C5 (coin : String) (raw : List Byte) (hIn : Option Nat)
    (b : Block) (_hlen : raw.length ≥ 80)
    (hp : parse_block_sync coin raw hIn = some b) :
    b.hash = bytesToHex ((sha256B (sha256B (raw.take 80))).reverse) := by
  unfold parse_block_sync at hp
  simp only [Cursor.read, List.drop_zero] at hp
  split at hp
  · exact absurd hp (by simp)
  · split at hp
    · exact absurd hp (by simp)
    · exact absurd hp (by simp)
    · rw [← Option.some_inj.mp hp]

/-- An 80-byte all-zero header followed by a zero transaction count. -/
def c5Raw : List Byte := List.replicate 80 (byte 0) ++ [byte 0]

set_option maxRecDepth 1000000 in
/-- Witness for C5 at a concrete raw block. -/
theorem parse_block_hash_C5_witness :
    c5Raw.length ≥ 80
    ∧ ((parse_block_sync "bitcoin" c5Raw none).map Block.hash)
        = some (bytesToHex ((sha256B (sha256B (c5Raw.take 80))).reverse)) := by
  refine ⟨by decide, ?_⟩
  cases hp : parse_block_sync "bitcoin" c5Raw none with
  | none => exact absurd hp (by decide)
  | some b =>
    have h := parse_block_hash_C5 "bitcoin" c5Raw none b (by decide) hp
    simp [h]

/-- The claim's BIP-34 height rule, stated in its own words: if the
coinbase scriptSig's first byte (a push length) is 0 or greater than 8, or
exceeds the remaining script length, the height is null; otherwise it is
the little-endian integer formed by the next push-length bytes. -/
def spec_bip34_height (t : Tx) : Option Nat :=
  match t.vin with
  | [] => none
  | v :: _ =>
    match fromhexStr v.scriptSig with
    | none => none
    | some [] => none
    | some (p :: rest) =>
      if p.1 = 0 ∨ p.1 > 8 ∨ p.1 > rest.length then none
      else some (leNat (rest.take p.1))

/-- The source's height extractor agrees with the claim's rule on every
transaction. -/
theorem extract_height_eq_spec (t : Tx) :
    _extract_height_from_coinbase t = spec_bip34_height t := by
  unfold _extract_height_from_coinbase spec_bip34_height
  cases t.vin with
  | nil => rfl
  | cons v vs =>
    simp only []
    by_cases he : v.scriptSig = ""
    · rw [if_pos he, he]
      rfl
    · rw [if_neg he]
      cases hfh : fromhexStr v.scriptSig with
      | none => rfl
      | some script =>
        cases script with
        | nil => rfl
        | cons p rest =>
          simp only []
          have hiff : (p.1 < 1 ∨ p.1 > (p :: rest).length - 1 ∨ p.1 > 8)
              ↔ (p.1 = 0 ∨ p.1 > 8 ∨ p.1 > rest.length) := by
            simp only [List.length_cons]
            omega
          by_cases hc : p.1 = 0 ∨ p.1 > 8 ∨ p.1 > rest.length
          · rw [if_pos (hiff.mpr hc), if_pos hc]
          · rw [if_neg (fun hh => hc (hiff.mp hh)), if_neg hc]

/-- C8: a block parsed without a caller-supplied height gets exactly the
claim's BIP-34 height from its first transaction (null when the push length
is 0, greater than 8 or longer than the rest of the scriptSig; otherwise
the little-endian value of the pushed bytes), and null when no transaction
was parsed. -/
theorem parse_block_height_C8 (coin : String) (raw : List Byte) (b : Block)
    (hp : parse_block_sync coin raw none = some b) :
    b.height = (match b.tx.head? with
      | none => none
      | some t => spec_bip34_height t) := by
  unfold parse_block_sync at hp
  simp only [Cursor.read] at hp
  split at hp
  · exact absurd hp (by simp)
  · split at hp
    · exact absurd hp (by simp)
    · exact absurd hp (by simp)
    · rw [← Option.some_inj.mp hp]
      cases htx : (txLoop coin _ _).1 with
      | nil => rfl
      | cons t ts =>
        simp only [htx, List.head?_cons]
        exact extract_height_eq_spec t

/-- A concrete block: zero header, one coinbase transaction whose scriptSig
pushes the 3-byte little-endian height 100. -/
def c8Raw : List Byte :=
  List.replicate 80 (byte 0) ++ [byte 1]
    ++ lePack 4 1 ++ [byte 1] ++ List.replicate 32 (byte 0) ++ lePack 4 0xffffffff
    ++ [byte 4] ++ [byte 3, byte 100, byte 0, byte 0] ++ lePack 4 0xffffffff
    ++ [byte 1] ++ lePack 8 5000000000 ++ [byte 0] ++ lePack 4 0

set_option maxRecDepth 1000000 in
/-- Witness for C8: the concrete block above parses to height 100. -/
theorem parse_block_height_C8_witness :
    ∃ b, parse_block_sync "bitcoin" c8Raw none = some b ∧ b.height = some 100 := by
  have hp : parse_block_sync "bitcoin" c8Raw none
      = some ((parse_block_sync "bitcoin" c8Raw none).get!) := by decide
  refine ⟨_, hp, ?_⟩
  rw [parse_block_height_C8 "bitcoin" c8Raw _ hp]
  decide

/-- The per-coin network magic chosen in parser.__init__. -/
def magic_bytes (coin : String) : List Byte :=
  if coin = "litecoin" then [byte 0xfb, byte 0xc0, byte 0xb6, byte 0xdb]
  else [byte 0xf9, byte 0xbe, byte 0xb4, byte 0xd9]

/-- The magic is always four bytes. -/
theorem magic_bytes_length (coin : String) : (magic_bytes coin).length = 4 := by
  unfold magic_bytes
  split <;> rfl

/-- parser.read_block_sync over the remaining bytes of the file: an empty
read is a clean end (None); a non-matching magic raises ValueError
"Invalid magic bytes"; a short size field is a clean end; a payload shorter
than the declared size raises ValueError "Incomplete block". -/
def read_block_sync (coin : String) (rest : List Byte) :
    Except PyErr (Option (List Byte) × List Byte) :=
  if rest.take 4 = [] then .ok (none, rest.drop 4)
  else if rest.take 4 ≠ magic_bytes coin then .error .invalidMagic
  else
    if ((rest.drop 4).take 4).length < 4 then .ok (none, (rest.drop 4).drop 4)
    else
      let block_size := leNat ((rest.drop 4).take 4)
      let body := (rest.drop 4).drop 4
      if (body.take block_size).length < block_size then .error .incompleteBlock
      else .ok (some (body.take block_size), body.drop block_size)

/-- Driving read_block_sync repeatedly, as the worker loop does: collect
blocks until a clean end (None) or an error. -/
def readBlocks (coin : String) : Nat → List Byte → List (List Byte) × Option PyErr
  | 0, _ => ([], none)
  | fuel + 1, bs =>
    match read_block_sync coin bs with
    | .error e => ([], some e)
    | .ok (none, _) => ([], none)
    | .ok (some b, rest) =>
      let r := readBlocks coin fuel rest
      (b :: r.1, r.2)

/-- One on-disk frame: magic, little-endian u32 size, payload. -/
def frame (coin : String) (payload : List Byte) : List Byte :=
  magic_bytes coin ++ lePack 4 payload.length ++ payload

/-- A well-formed block file: a concatenation of frames. -/
def framesFile (coin : String) (payloads : List (List Byte)) : List Byte :=
  (payloads.map (frame coin)).flatten

/-- lePack produces the requested number of bytes. -/
theorem lePack_length (k n : Nat) : (lePack k n).length = k := by
  induction k generalizing n with
  | zero => rfl
  | succ k ih => simp [lePack, ih]

/-- Round trip of the little-endian size field. -/
theorem leNat_lePack4 (n : Nat) (h : n < 4294967296) : leNat (lePack 4 n) = n := by
  simp only [lePack, leNat, List.foldr, byte]
  omega

/-- Reading at the start of a well-formed frame yields exactly its payload
and leaves the following bytes. -/
theorem read_block_sync_frame (coin : String) (p rest : List Byte)
    (h32 : p.length < 4294967296) :
    read_block_sync coin (frame coin p ++ rest) = .ok (some p, rest) := by
  have hne : ¬(magic_bytes coin = ([] : List Byte)) := by
    intro hh
    have h4 := congrArg List.length hh
    rw [magic_bytes_length] at h4
    exact absurd h4 (by decide)
  unfold read_block_sync frame
  rw [List.append_assoc, List.append_assoc]
  rw [List.take_left' (magic_bytes_length coin), List.drop_left' (magic_bytes_length coin)]
  rw [List.take_left' (lePack_length 4 _), List.drop_left' (lePack_length 4 _)]
  rw [if_neg hne, if_neg (not_not_intro rfl)]
  rw [if_neg (by rw [lePack_length]; decide)]
  simp only [leNat_lePack4 _ h32, List.take_left, List.drop_left]
  rw [if_neg (lt_irrefl _)]

/-- Reading a file that starts with well-formed frames yields those
payloads first, then whatever reading the remainder yields. -/
theorem readBlocks_frames_first (coin : String) :
    ∀ (payloads : List (List Byte)) (tail : List Byte) (extra : Nat),
    (∀ p ∈ payloads, p.length < 4294967296) →
    readBlocks coin (payloads.length + extra) (framesFile coin payloads ++ tail)
      = (payloads ++ (readBlocks coin extra tail).1, (readBlocks coin extra tail).2) := by
  intro payloads
  induction payloads with
  | nil =>
    intro tail extra h32
    simp [framesFile]
  | cons p ps ih =>
    intro tail extra h32
    have hstep : (p :: ps).length + extra = (ps.length + extra) + 1 := by
      simp only [List.length_cons]
      omega
    rw [hstep]
    have hfile : framesFile coin (p :: ps) ++ tail
        = frame coin p ++ (framesFile coin ps ++ tail) := by
      simp [framesFile]
    rw [hfile]
    simp only [readBlocks]
    rw [read_block_sync_frame coin p _ (h32 p (by simp))]
    simp only []
    rw [ih tail extra (fun q hq => h32 q (by simp [hq]))]
    simp

/-- C6 (amended): an empty file is a clean end; a file of exact frames
yields all payloads and a clean end; a frame starting with four bytes that
are not the magic fails with InvalidMagic; a complete magic and size with a
short payload fails with TruncatedFrame (ValueError "Incomplete block");
and a file truncated mid-frame at or after the end of the partial frame's
magic yields every complete preceding block and never InvalidMagic - a
clean end when the size field itself is short, TruncatedFrame when the
payload is short. (Truncation strictly inside the magic is the exception
the original claim missed; see the counterexample.) -/
theorem read_blocks_C6 (coin : String) :
    (∀ fuel, readBlocks coin (fuel + 1) [] = ([], none))
    ∧ (∀ payloads extra, (∀ p ∈ payloads, p.length < 4294967296) →
        readBlocks coin (payloads.length + (extra + 1)) (framesFile coin payloads)
          = (payloads, none))
    ∧ (∀ rest, rest ≠ [] → rest.take 4 ≠ magic_bytes coin →
        read_block_sync coin rest = .error .invalidMagic)
    ∧ (∀ n pp, pp.length < n → n < 4294967296 →
        read_block_sync coin (magic_bytes coin ++ (lePack 4 n ++ pp))
          = .error .incompleteBlock)
    ∧ (∀ payloads extra sizeRest, (∀ p ∈ payloads, p.length < 4294967296) →
        sizeRest.length < 4 →
        readBlocks coin (payloads.length + (extra + 1))
          (framesFile coin payloads ++ (magic_bytes coin ++ sizeRest))
          = (payloads, none))
    ∧ (∀ payloads extra n pp, (∀ p ∈ payloads, p.length < 4294967296) →
        pp.length < n → n < 4294967296 →
        readBlocks coin (payloads.length + (extra + 1))
          (framesFile coin payloads ++ (magic_bytes coin ++ (lePack 4 n ++ pp)))
          = (payloads, some .incompleteBlock)) := by
  have hmagicne : ¬(magic_bytes coin = ([] : List Byte)) := by
    intro hh
    have h4 := congrArg List.length hh
    rw [magic_bytes_length] at h4
    exact absurd h4 (by decide)
  have hinv : ∀ rest, rest ≠ [] → rest.take 4 ≠ magic_bytes coin →
      read_block_sync coin rest = .error .invalidMagic := by
    intro rest hne hmag
    unfold read_block_sync
    rw [if_neg (by
      intro hh
      rcases List.take_eq_nil_iff.mp hh with h | h
      · exact absurd h (by decide)
      · exact hne h)]
    rw [if_pos hmag]
  have htrunc : ∀ n pp, pp.length < n → n < 4294967296 →
      read_block_sync coin (magic_bytes coin ++ (lePack 4 n ++ pp))
        = .error .incompleteBlock := by
    intro n pp hlt h32
    unfold read_block_sync
    rw [List.take_left' (magic_bytes_length coin), List.drop_left' (magic_bytes_length coin)]
    rw [List.take_left' (lePack_length 4 _), List.drop_left' (lePack_length 4 _)]
    rw [if_neg hmagicne, if_neg (not_not_intro rfl)]
    rw [if_neg (by rw [lePack_length]; decide)]
    rw [leNat_lePack4 _ h32]
    rw [if_pos (by rw [List.length_take]; omega)]
  have hshort : ∀ sizeRest : List Byte, sizeRest.length < 4 →
      read_block_sync coin (magic_bytes coin ++ sizeRest) = .ok (none, sizeRest.drop 4) := by
    intro sizeRest hlen
    unfold read_block_sync
    rw [List.take_left' (magic_bytes_length coin), List.drop_left' (magic_bytes_length coin)]
    rw [if_neg hmagicne, if_neg (not_not_intro rfl)]
    rw [if_pos (by rw [List.length_take]; omega)]
  refine ⟨fun fuel => rfl, ?_, hinv, htrunc, ?_, ?_⟩
  · intro payloads extra h32
    have h := readBlocks_frames_first coin payloads [] (extra + 1) h32
    rw [List.append_nil] at h
    rw [h]
    simp [readBlocks, read_block_sync]
  · intro payloads extra sizeRest h32 hlen
    rw [readBlocks_frames_first coin payloads _ (extra + 1) h32]
    simp only [readBlocks, hshort sizeRest hlen]
    simp
  · intro payloads extra n pp h32 hlt h32n
    rw [readBlocks_frames_first coin payloads _ (extra + 1) h32]
    simp only [readBlocks, htrunc n pp hlt h32n]
    simp

/-- Witness for C6 at concrete inputs: each clause evaluated on a small
file. -/
theorem read_blocks_C6_witness :
    readBlocks "bitcoin" 1 [] = ([], none)
    ∧ readBlocks "bitcoin" 2 (framesFile "bitcoin" [[byte 7]]) = ([[byte 7]], none)
    ∧ read_block_sync "bitcoin" [byte 1, byte 2] = .error .invalidMagic
    ∧ read_block_sync "bitcoin" (magic_bytes "bitcoin" ++ (lePack 4 5 ++ [byte 0]))
        = .error .incompleteBlock
    ∧ readBlocks "bitcoin" 2
        (framesFile "bitcoin" [[byte 7]] ++ (magic_bytes "bitcoin" ++ [byte 9]))
        = ([[byte 7]], none)
    ∧ readBlocks "bitcoin" 2
        (framesFile "bitcoin" [[byte 7]] ++ (magic_bytes "bitcoin" ++ (lePack 4 5 ++ [byte 0])))
        = ([[byte 7]], some .incompleteBlock) := by
  obtain ⟨h1, h2, h3, h4, h5, h6⟩ := read_blocks_C6 "bitcoin"
  exact ⟨h1 0, h2 [[byte 7]] 0 (by decide), h3 [byte 1, byte 2] (by decide) (by decide),
    h4 5 [byte 0] (by decide) (by decide), h5 [[byte 7]] 0 [byte 9] (by decide) (by decide),
    h6 [[byte 7]] 0 5 [byte 0] (by decide) (by decide) (by decide)⟩

/-- C6 counterexample: a file holding one complete frame and then a single
byte 0xf9 - i.e. truncated strictly inside the next frame's magic - yields
the complete block and then an InvalidMagic error, refuting "a file
truncated mid-frame never yields an InvalidMagic error". -/
theorem read_blocks_C6_counterexample :
    readBlocks "bitcoin" 3 (frame "bitcoin" [byte 7] ++ [byte 0xf9])
      = ([[byte 7]], some .invalidMagic)
    ∧ [byte 0xf9] = (magic_bytes "bitcoin").take 1
    ∧ ([byte 0xf9] : List Byte).length < ((magic_bytes "bitcoin").length + 4) := by
  exact ⟨by decide, by decide, by decide⟩

/-- The attribute names the index class defines (its __init__ assignments
and its methods, from src/core/indexer.py). Python resolves
self._extract_address_from_scriptsig against this set. -/
def indexAttrNames : List String :=
  ["fetched_blocks", "coin", "database", "stop_event", "lock", "rpc", "cli",
   "node", "parser", "use_chunks", "insert_chunk_size", "max_workers",
   "store_blocks", "block_path", "run", "get_blocks", "parse_blk_files",
   "index_blocks", "store_blocks_batch", "verify_indexed_blocks",
   "process_and_store_transactions_batch", "process_and_store_transactions"]

/-- The attribute names the parser class defines (from
src/core/blk_parser.py). -/
def parserAttrNames : List String :=
  ["coin", "magic_bytes", "BIP34_COINBASE_ACTIVATION", "read_block_sync",
   "_extract_height_from_coinbase", "parse_block_sync", "read_varint_sync",
   "read_hash_sync", "read_block_header_sync", "decode_address",
   "_encode_address", "_encode_bech32", "_bech32_hrp_expand",
   "_bech32_polymod_step", "_bech32_create_checksum", "_convertbits",
   "_bech32_charset", "parse_transaction_sync", "_write_varint",
   "_extract_address_from_scriptsig", "read_block", "read_varint",
   "read_hash", "read_block_header", "parse_transaction", "parse_block"]

/-- The coinbase sentinel test of the two transaction-processing methods. -/
def isCoinbaseVin (v : VIn) : Bool :=
  (v.txid == "0000000000000000000000000000000000000000000000000000000000000000")
    && (v.vout == 4294967295)

/-- The scan loop of parser._extract_address_from_scriptsig: find the first
index i with byte 0x30 and i+1 in range; at that index either return the
P2PKH address of the pubkey found after the DER signature, or stop (the
loop breaks whether or not an address was produced). -/
def scriptsigScanF (coin : String) (s : List Byte) : Nat → Nat → Option String
  | 0, _ => none
  | fuel + 1, i =>
    if i < s.length then
      if s.getD i (byte 0) = byte 0x30 ∧ i + 1 < s.length then
        let sig_len := (s.getD (i + 1) (byte 0)).1
        if sig_len > 0 ∧ i + 2 + sig_len < s.length then
          let ps := i + 2 + sig_len + 1
          if ps < s.length then
            let pubkey_len := (s.getD (ps - 1) (byte 0)).1
            if (pubkey_len = 33 ∨ pubkey_len = 65) ∧ ps + pubkey_len ≤ s.length then
              let pubkey := (s.drop ps).take pubkey_len
              let pubkey_hash := ripemd160B (sha256B pubkey)
              let checksum_input :=
                (if coin = "litecoin" then [byte 0x30] else [byte 0x00]) ++ pubkey_hash
              some (b58encode
                (checksum_input ++ (sha256B (sha256B checksum_input)).take 4))
            else none
          else none
        else none
      else scriptsigScanF coin s fuel (i + 1)
    else none

/-- parser._extract_address_from_scriptsig. -/
def _extract_address_from_scriptsig (coin : String) (scriptsig_hex : String) :
    Option String :=
  if scriptsig_hex = "" then none
  else
    match fromhexStr scriptsig_hex with
    | none => none
    | some sb =>
      if sb.length < 33 then none
      else scriptsigScanF coin sb sb.length 0

/-- One stored vin document. -/
structure VinDoc where
  txid : String
  vout : Nat
  address : Option String
  value : Nat
deriving DecidableEq, Repr

/-- One stored vout document. -/
structure VoutDoc where
  n : Nat
  address : Option String
  value : PRat
deriving DecidableEq, Repr

/-- One stored transaction document. -/
structure TxDoc where
  txid : String
  blockHash : String
  blockHeight : Option Nat
  timestamp : Nat
  vin : List VinDoc
  vout : List VoutDoc
deriving DecidableEq, Repr

/-- The vin documents of index.process_and_store_transactions: the method
resolves self._extract_address_from_scriptsig on the index object; the
index class defines no such attribute (indexAttrNames), so the first
non-coinbase input raises AttributeError. The guarded branch shows what the
call would do if the attribute existed. -/
def indexVinDocs (coin : String) : List VIn → Except PyErr (List VinDoc)
  | [] => .ok []
  | v :: rest =>
    if isCoinbaseVin v then
      match indexVinDocs coin rest with
      | .error e => .error e
      | .ok ds => .ok (⟨v.txid, v.vout, some "coinbase", 0⟩ :: ds)
    else
      if indexAttrNames.contains "_extract_address_from_scriptsig" then
        match indexVinDocs coin rest with
        | .error e => .error e
        | .ok ds =>
          .ok (⟨v.txid, v.vout, _extract_address_from_scriptsig coin v.scriptSig, 0⟩ :: ds)
      else .error .attributeError

/-- The vin documents of index.process_and_store_transactions_batch, which
calls the method through self.parser where it does exist. -/
def parserVinDocs (coin : String) : List VIn → List VinDoc
  | [] => []
  | v :: rest =>
    if isCoinbaseVin v then
      ⟨v.txid, v.vout, some "coinbase", 0⟩ :: parserVinDocs coin rest
    else
      ⟨v.txid, v.vout, _extract_address_from_scriptsig coin v.scriptSig, 0⟩
        :: parserVinDocs coin rest

/-- The vout documents both processing methods build: the stored address,
recomputed through decode_address when it is null and the script is
non-empty. -/
def storeVoutDocs (coin : String) : List VOut → Except PyErr (List VoutDoc)
  | [] => .ok []
  | o :: rest =>
    match (if o.address = none ∧ o.scriptPubKey ≠ ""
        then decode_address coin o.scriptPubKey else .ok o.address) with
    | .error e => .error e
    | .ok addr =>
      match storeVoutDocs coin rest with
      | .error e => .error e
      | .ok ds => .ok (⟨o.n, addr, o.value⟩ :: ds)

/-- The per-transaction document loop of process_and_store_transactions. -/
def storeTxDocs (coin bh : String) (height : Option Nat) (ts : Nat) :
    List Tx → Except PyErr (List TxDoc)
  | [] => .ok []
  | t :: rest =>
    match indexVinDocs coin t.vin with
    | .error e => .error e
    | .ok vds =>
      match storeVoutDocs coin t.vout with
      | .error e => .error e
      | .ok ods =>
        match storeTxDocs coin bh height ts rest with
        | .error e => .error e
        | .ok ds => .ok (⟨t.txid, bh, height, ts, vds, ods⟩ :: ds)

/-- index.process_and_store_transactions: build the documents of one block
(the insert happens afterwards, only when the list is non-empty). -/
def process_and_store_transactions (coin : String) (b : Block) :
    Except PyErr (List TxDoc) :=
  storeTxDocs coin b.hash b.height b.timestamp b.tx

/-- The per-transaction document loop of the batch variant. -/
def storeTxDocsBatch (coin bh : String) (height : Option Nat) (ts : Nat) :
    List Tx → Except PyErr (List TxDoc)
  | [] => .ok []
  | t :: rest =>
    match storeVoutDocs coin t.vout with
    | .error e => .error e
    | .ok ods =>
      match storeTxDocsBatch coin bh height ts rest with
      | .error e => .error e
      | .ok ds => .ok (⟨t.txid, bh, height, ts, parserVinDocs coin t.vin, ods⟩ :: ds)

/-- index.process_and_store_transactions_batch over a block list. -/
def process_and_store_transactions_batch (coin : String) :
    List Block → Except PyErr (List TxDoc)
  | [] => .ok []
  | b :: rest =>
    match storeTxDocsBatch coin b.hash b.height b.timestamp b.tx with
    | .error e => .error e
    | .ok ds =>
      match process_and_store_transactions_batch coin rest with
      | .error e => .error e
      | .ok ds2 => .ok (ds ++ ds2)

/-- The events a worker emits, at the granularity of the claims: a block
store (store_block / store_blocks_batch) covering n blocks, the completion
of the transaction-persistence routine for n blocks, and the shared-counter
increment. -/
inductive TraceItem where
  | sinkBlocks (n : Nat) : TraceItem
  | sinkTxs (n : Nat) : TraceItem
  | increment : TraceItem
deriving DecidableEq, Repr

/-- The per-worker configuration slice of the index object. -/
structure WorkerCfg where
  coin : String
  use_chunks : Bool
  insert_chunk_size : Nat
  store_blocks : Bool
deriving DecidableEq, Repr

/-- The after-loop flush (indexer.py lines 158-167): in chunked mode a
non-empty buffer is stored and processed, errors logged without effect. -/
def tailFlush (cfg : WorkerCfg) (buf : List Block) : List TraceItem :=
  if cfg.use_chunks ∧ buf ≠ [] then
    (if cfg.store_blocks then [.sinkBlocks buf.length] else [])
      ++ (match process_and_store_transactions_batch cfg.coin buf with
          | .ok _ => [.sinkTxs buf.length]
          | .error _ => [])
  else []

/-- The worker loop of index.index_blocks.parse_block_file, as the sequence
of events it emits: read a frame, parse it, then either buffer/flush
(chunked) or store per block (non-chunked); any exception inside the loop
body breaks out to the tail flush; the counter increment is the last step
of a successful iteration. -/
def runWorker (cfg : WorkerCfg) : Nat → List Byte → List Block → List TraceItem
  | 0, _, buf => tailFlush cfg buf
  | fuel + 1, bs, buf =>
    match read_block_sync cfg.coin bs with
    | .error _ => tailFlush cfg buf
    | .ok (none, _) => tailFlush cfg buf
    | .ok (some bd, rest) =>
      match parse_block_sync cfg.coin bd none with
      | none => runWorker cfg fuel rest buf
      | some b =>
        if cfg.use_chunks then
          if (buf ++ [b]).length ≥ cfg.insert_chunk_size then
            (if cfg.store_blocks then [.sinkBlocks (buf ++ [b]).length] else [])
              ++ match process_and_store_transactions_batch cfg.coin (buf ++ [b]) with
                 | .error _ => tailFlush cfg (buf ++ [b])
                 | .ok _ =>
                   .sinkTxs (buf ++ [b]).length :: .increment :: runWorker cfg fuel rest []
          else .increment :: runWorker cfg fuel rest (buf ++ [b])
        else
          (if cfg.store_blocks then [.sinkBlocks 1] else [])
            ++ match process_and_store_transactions cfg.coin b with
               | .error _ => tailFlush cfg buf
               | .ok _ => .sinkTxs 1 :: .increment :: runWorker cfg fuel rest buf

/-- The progress-safety check: walking the trace, every increment must be
covered by transaction-persistence already completed (credit = blocks
persisted minus increments so far); checkTrace 0 t = true says the counter
read at any point never exceeds the blocks handed to the sink. -/
def checkTrace : Nat → List TraceItem → Bool
  | _, [] => true
  | credit, .increment :: t => decide (0 < credit) && checkTrace (credit - 1) t
  | credit, .sinkTxs n :: t => checkTrace (credit + n) t
  | credit, .sinkBlocks _ :: t => checkTrace credit t

/-- C4 (amended): with use_chunks false, every increment of the shared
counter comes after the sink calls that persist that block's records, so at
every prefix of the worker's event trace the counter never exceeds the
number of blocks handed to the sink - for every file content, buffer and
fuel. (With use_chunks true this fails; see the counterexample.) -/
theorem worker_counter_C4 (cfg : WorkerCfg) (hnc : cfg.use_chunks = false) :
    ∀ fuel bs buf credit, checkTrace credit (runWorker cfg fuel bs buf) = true := by
  intro fuel
  induction fuel with
  | zero =>
    intro bs buf credit
    simp [runWorker, tailFlush, hnc, checkTrace]
  | succ fuel ih =>
    intro bs buf credit
    simp only [runWorker]
    cases read_block_sync cfg.coin bs with
    | error e => simp [tailFlush, hnc, checkTrace]
    | ok r =>
      obtain ⟨ob, rest⟩ := r
      cases ob with
      | none => simp [tailFlush, hnc, checkTrace]
      | some bd =>
        simp only []
        cases parse_block_sync cfg.coin bd none with
        | none => exact ih rest buf credit
        | some b =>
          simp only []
          rw [if_neg (by simp [hnc])]
          cases hp : process_and_store_transactions cfg.coin b with
          | error e =>
            cases hsb : cfg.store_blocks <;>
              simp [checkTrace, tailFlush, hnc]
          | ok ds =>
            cases hsb : cfg.store_blocks <;>
              simp [checkTrace, ih rest buf credit]

/-- Witness for C4 on a concrete non-chunked run over a one-frame file. -/
theorem worker_counter_C4_witness :
    checkTrace 0 (runWorker ⟨"bitcoin", false, 1000, false⟩ 2
      (frame "bitcoin" c8Raw) []) = true :=
  worker_counter_C4 ⟨"bitcoin", false, 1000, false⟩ rfl 2 (frame "bitcoin" c8Raw) [] 0

set_option maxRecDepth 1000000 in
/-- C4 counterexample: in chunked mode (chunk size 1000, the default) the
very first parsed block is buffered and the counter incremented before any
sink call, so an observer reading between the increment and the final flush
sees the counter ahead of persisted work; the claim's "this holds … when
use_chunks is true" is false. -/
theorem worker_counter_C4_counterexample :
    runWorker ⟨"bitcoin", true, 1000, false⟩ 2 (frame "bitcoin" c8Raw) []
      = [.increment, .sinkTxs 1]
    ∧ checkTrace 0 [TraceItem.increment, TraceItem.sinkTxs 1] = false := by
  exact ⟨by decide, by decide⟩

/-- Any input list containing a non-coinbase vin makes the index-object vin
processing fail with AttributeError. -/
theorem indexVinDocs_err (coin : String) : ∀ vins : List VIn,
    (∃ v ∈ vins, isCoinbaseVin v = false) →
    indexVinDocs coin vins = .error .attributeError := by
  intro vins
  induction vins with
  | nil =>
    rintro ⟨v, hv, -⟩
    cases hv
  | cons v rest ih =>
    rintro ⟨w, hw, hcb⟩
    simp only [indexVinDocs]
    by_cases hv : isCoinbaseVin v = true
    · rw [if_pos hv]
      have hrest : ∃ u ∈ rest, isCoinbaseVin u = false := by
        rcases List.mem_cons.mp hw with h | h
        · subst h
          rw [hv] at hcb
          cases hcb
        · exact ⟨w, h, hcb⟩
      rw [ih hrest]
    · rw [if_neg hv, if_neg (by decide)]

/-- All-coinbase inputs are processed without error. -/
theorem indexVinDocs_ok (coin : String) : ∀ vins : List VIn,
    (∀ v ∈ vins, isCoinbaseVin v = true) →
    ∃ ds, indexVinDocs coin vins = .ok ds := by
  intro vins
  induction vins with
  | nil => exact fun _ => ⟨[], rfl⟩
  | cons v rest ih =>
    intro hall
    obtain ⟨ds, hds⟩ := ih (fun u hu => hall u (by simp [hu]))
    exact ⟨⟨v.txid, v.vout, some "coinbase", 0⟩ :: ds,
      by simp only [indexVinDocs, if_pos (hall v (by simp)), hds]⟩

/-- Hex scriptPubKeys make the vout processing total. -/
theorem storeVoutDocs_ok (coin : String) : ∀ vouts : List VOut,
    (∀ o ∈ vouts, isHexStr o.scriptPubKey = true) →
    ∃ ds, storeVoutDocs coin vouts = .ok ds := by
  intro vouts
  induction vouts with
  | nil => exact fun _ => ⟨[], rfl⟩
  | cons o rest ih =>
    intro hhex
    obtain ⟨ds, hds⟩ := ih (fun u hu => hhex u (by simp [hu]))
    have haddr : ∃ a, (if o.address = none ∧ o.scriptPubKey ≠ ""
        then decode_address coin o.scriptPubKey else .ok o.address) = .ok a := by
      split
      · exact decode_address_hex_total coin o.scriptPubKey (hhex o (by simp))
      · exact ⟨_, rfl⟩
    obtain ⟨a, ha⟩ := haddr
    exact ⟨⟨o.n, a, o.value⟩ :: ds, by simp only [storeVoutDocs, ha, hds]⟩

/-- A transaction list containing a non-coinbase vin (with hex
scriptPubKeys, as every parsed block has) makes the per-block document loop
fail with AttributeError. -/
theorem storeTxDocs_attrErr (coin bh : String) (height : Option Nat) (ts : Nat) :
    ∀ txs : List Tx,
    (∀ t ∈ txs, ∀ o ∈ t.vout, isHexStr o.scriptPubKey = true) →
    (∃ t ∈ txs, ∃ v ∈ t.vin, isCoinbaseVin v = false) →
    storeTxDocs coin bh height ts txs = .error .attributeError := by
  intro txs
  induction txs with
  | nil =>
    rintro - ⟨t, ht, -⟩
    cases ht
  | cons t rest ih =>
    intro hhex hex
    by_cases hv : ∃ v ∈ t.vin, isCoinbaseVin v = false
    · simp only [storeTxDocs, indexVinDocs_err coin t.vin hv]
    · push_neg at hv
      have hall : ∀ v ∈ t.vin, isCoinbaseVin v = true := by
        intro v hv'
        have := hv v hv'
        simpa using this
      obtain ⟨ds1, hds1⟩ := indexVinDocs_ok coin t.vin hall
      obtain ⟨ds2, hds2⟩ := storeVoutDocs_ok coin t.vout (hhex t (by simp))
      have hrest : ∃ t' ∈ rest, ∃ v ∈ t'.vin, isCoinbaseVin v = false := by
        rcases hex with ⟨t', ht', v, hv', hcb⟩
        rcases List.mem_cons.mp ht' with h | h
        · subst h
          exact absurd hcb (hv v hv')
        · exact ⟨t', h, v, hv', hcb⟩
      simp only [storeTxDocs, hds1, hds2,
        ih (fun t' ht' => hhex t' (by simp [ht'])) hrest]

/-- C3: the index class defines no _extract_address_from_scriptsig (only
the parser does), so in non-chunked mode processing a parsed block with a
non-coinbase input fails with AttributeError; the worker catches it and
ends the file, emitting no transaction-store event and no increment for
that block and reading no further frame. -/
theorem process_store_C3 (cfg : WorkerCfg) (b : Block)
    (hhex : ∀ t ∈ b.tx, ∀ o ∈ t.vout, isHexStr o.scriptPubKey = true)
    (hnc : ∃ t ∈ b.tx, ∃ v ∈ t.vin, isCoinbaseVin v = false)
    (hchunks : cfg.use_chunks = false) :
    ¬("_extract_address_from_scriptsig" ∈ indexAttrNames)
    ∧ ("_extract_address_from_scriptsig" ∈ parserAttrNames)
    ∧ process_and_store_transactions cfg.coin b = .error .attributeError
    ∧ (∀ fuel bs bd rest buf,
        read_block_sync cfg.coin bs = .ok (some bd, rest) →
        parse_block_sync cfg.coin bd none = some b →
        runWorker cfg (fuel + 1) bs buf
          = (if cfg.store_blocks then [TraceItem.sinkBlocks 1] else [])) := by
  have hproc : process_and_store_transactions cfg.coin b = .error .attributeError :=
    storeTxDocs_attrErr cfg.coin b.hash b.height b.timestamp b.tx hhex hnc
  refine ⟨by decide, by decide, hproc, ?_⟩
  intro fuel bs bd rest buf hread hparse
  simp only [runWorker, hread, hparse]
  rw [if_neg (by simp [hchunks])]
  simp [hproc, tailFlush, hchunks]

/-- A concrete block payload whose single transaction spends a non-coinbase
input. -/
def c3Payload : List Byte := List.replicate 80 (byte 0) ++ [byte 1] ++ c2LegacyTrue

set_option maxRecDepth 1000000 in
/-- Witness for C3: the concrete block fails with AttributeError and the
non-chunked worker emits no event for its file. -/
theorem process_store_C3_witness :
    process_and_store_transactions "bitcoin"
        ((parse_block_sync "bitcoin" c3Payload none).get!) = .error .attributeError
    ∧ runWorker ⟨"bitcoin", false, 1000, false⟩ 2 (frame "bitcoin" c3Payload) [] = [] := by
  have hb : parse_block_sync "bitcoin" c3Payload none
      = some ((parse_block_sync "bitcoin" c3Payload none).get!) := by decide
  obtain ⟨h1, h2, h3, h4⟩ := process_store_C3 ⟨"bitcoin", false, 1000, false⟩
    ((parse_block_sync "bitcoin" c3Payload none).get!) (by decide) (by decide) rfl
  refine ⟨h3, ?_⟩
  have h := h4 1 (frame "bitcoin" c3Payload) c3Payload [] [] (by decide) hb
  simpa using h

/-- C7 (amended): when the header and transaction-count varint parse, a
block whose transaction area is corrupted mid-transaction is not failed:
parse_block_sync returns a record with the header, the block hash, and
exactly the transactions fully parsed before the error (tx_count counts
them); the loop attempts no transaction after the failing one; and the
caller continues with the next frame of the file rather than stopping. -/
theorem parse_block_partial_C7 :
    (∀ (coin : String) (raw : List Byte) (hIn : Option Nat) (hdr : Header)
        (f1 : Cursor) (cnt : Nat) (f2 : Cursor),
      read_block_header_sync ((Cursor.read ⟨raw, 0⟩ 80).2.seekAbs 0) = .ok (hdr, f1) →
      read_varint_sync f1 = .ok (some cnt, f2) →
      ∃ b, parse_block_sync coin raw hIn = some b
        ∧ b.header = hdr
        ∧ b.hash = bytesToHex ((sha256B (sha256B ((Cursor.read ⟨raw, 0⟩ 80).1))).reverse)
        ∧ b.tx = (txLoop coin cnt f2).1
        ∧ b.tx_count = b.tx.length)
    ∧ (∀ (coin : String) (n : Nat) (f : Cursor) (e : PyErr),
        parse_transaction_sync coin f = .error e →
        txLoop coin (n + 1) f = ([], f))
    ∧ (∀ (cfg : WorkerCfg) (fuel : Nat) (bs bd rest : List Byte) (b : Block)
        (buf : List Block),
        read_block_sync cfg.coin bs = .ok (some bd, rest) →
        parse_block_sync cfg.coin bd none = some b →
        cfg.use_chunks = true →
        (buf ++ [b]).length < cfg.insert_chunk_size →
        runWorker cfg (fuel + 1) bs buf
          = .increment :: runWorker cfg fuel rest (buf ++ [b])) := by
  refine ⟨?_, ?_, ?_⟩
  · intro coin raw hIn hdr f1 cnt f2 hhdr hvar
    simp only [parse_block_sync, hhdr, hvar]
    exact ⟨_, rfl, rfl, rfl, rfl, rfl⟩
  · intro coin n f e h
    simp [txLoop, h]
  · intro cfg fuel bs bd rest b buf hread hparse huc hlt
    simp only [runWorker, hread, hparse]
    rw [if_pos (by simp [huc]), if_neg (by omega)]

/-- A block frame whose transaction area is corrupted mid-transaction: the
declared count is 1 but the single transaction is cut off after its
version byte and input count. -/
def c7BadPayload : List Byte :=
  List.replicate 80 (byte 0) ++ [byte 1] ++ lePack 4 1 ++ [byte 1]

set_option maxRecDepth 1000000 in
/-- Witness for C7 at concrete inputs: the corrupted block still parses to
a record with no transactions, the transaction loop stops at the failing
transaction, and a chunked worker continues after buffering a block. -/
theorem parse_block_partial_C7_witness :
    (∃ b, parse_block_sync "bitcoin" c7BadPayload none = some b ∧ b.tx = [])
    ∧ txLoop "bitcoin" 1 ⟨c7BadPayload, 81⟩ = ([], ⟨c7BadPayload, 81⟩)
    ∧ runWorker ⟨"bitcoin", true, 1000, false⟩ 2 (frame "bitcoin" c8Raw) []
        = .increment :: runWorker ⟨"bitcoin", true, 1000, false⟩ 1 []
            [(parse_block_sync "bitcoin" c8Raw none).get!] := by
  obtain ⟨h1, h2, h3⟩ := parse_block_partial_C7
  refine ⟨?_, ?_, ?_⟩
  · obtain ⟨b, hb, hhdr, hhash, htx, hcnt⟩ := h1 "bitcoin" c7BadPayload none
      ⟨0, String.mk (List.replicate 64 '0'), String.mk (List.replicate 64 '0'), 0, 0, 0⟩
      ⟨c7BadPayload, 80⟩ 1 ⟨c7BadPayload, 81⟩ (by decide) (by decide)
    refine ⟨b, hb, ?_⟩
    rw [htx]
    decide
  · exact h2 "bitcoin" 0 ⟨c7BadPayload, 81⟩ .structError (by decide)
  · exact h3 ⟨"bitcoin", true, 1000, false⟩ 1 (frame "bitcoin" c8Raw) c8Raw [] _ []
      (by decide)
      (by decide)
      rfl (by decide)

set_option maxRecDepth 1000000 in
/-- C7 counterexample: after yielding the corrupted block (declared one
transaction, parsed zero), the worker does not stop reading the file - it
parses and processes the following frame too, refuting "the caller then
stops reading that file". -/
theorem parse_block_partial_C7_counterexample :
    (parse_block_sync "bitcoin" c7BadPayload none).map (fun b => (b.tx, b.tx_count))
      = some ([], 0)
    ∧ varintOfBytes (c7BadPayload.drop 80) = some 1
    ∧ runWorker ⟨"bitcoin", false, 1000, false⟩ 3
        (frame "bitcoin" c7BadPayload ++ frame "bitcoin" c8Raw) []
      = [.sinkTxs 1, .increment, .sinkTxs 1, .increment] := by
  exact ⟨by decide, by decide, by decide⟩
